import Mathlib

set_option autoImplicit false

/-!
Shallow embedding of `copy_on_write.h`: a copy-on-write wrapper over a
type-erased control-block hierarchy (`indirect_shared_control_block`,
`direct_shared_control_block`, `delegating_shared_control_block`).

The heap is modelled explicitly: a store of held objects (their logical
`Int` values, mirroring `DerivedType::value_`), a store of control blocks
with reference counts (mirroring `std::shared_ptr` use counts), a live
object counter (mirroring `DerivedType::object_count` in the tests), and
the copy/delete policy counters of the "constructed with copier and
deleter" test.  Copiers and deleters are the concrete policy flavours
appearing in the repository: the defaults, the counter-incrementing
lambdas, and `throwing_copier`.
-/

namespace CopyOnWrite

/-- Copy policy flavours from the source: `default_copy`, the
counter-incrementing lambda of the copier/deleter test, and
`throwing_copier`. -/
inductive Copier where
  | defaultC : Copier
  | counting : Copier
  | throwing : Copier
deriving DecidableEq, Repr

/-- Delete policy flavours from the source: `default_delete` and the
counter-incrementing lambda of the copier/deleter test. -/
inductive Deleter where
  | defaultD : Deleter
  | counting : Deleter
deriving DecidableEq, Repr

/-- Control blocks: `indirect_shared_control_block` (owns a heap object via
`unique_ptr` plus a copier), `direct_shared_control_block` (value stored in
the block; modelled by an object address owned by the block), and
`delegating_shared_control_block` (holds a `shared_ptr` to another block,
possibly null, since the converting constructors move a possibly-null
`cb_` into it). -/
inductive CB where
  | indirect (obj : Nat) (cop : Copier) (del : Deleter) : CB
  | direct (obj : Nat) : CB
  | delegating (delegate : Option Nat) : CB
deriving DecidableEq, Repr

/-- Pointwise update of a function-backed store. -/
def fset {α : Type} (m : Nat → α) (k : Nat) (v : α) : Nat → α :=
  fun x => if x = k then v else m x

@[simp] theorem fset_self {α : Type} (m : Nat → α) (k : Nat) (v : α) :
    fset m k v k = v := by simp [fset]

theorem fset_other {α : Type} (m : Nat → α) {k x : Nat} (v : α) (h : x ≠ k) :
    fset m k v x = m x := by simp [fset, h]

/-- The heap: held objects, control blocks with their `shared_ptr` use
counts, the live-object counter of the tests, and the two policy
counters. -/
structure World where
  nextObj : Nat
  objs : Nat → Option Int
  alive : Nat
  nextCb : Nat
  cbs : Nat → Option CB
  rc : Nat → Nat
  copyCount : Nat
  deleteCount : Nat

/-- `new DerivedType(v)`: allocates a fresh held object (the constructor
increments the live-object counter). -/
def allocObj (w : World) (v : Int) : Nat × World :=
  (w.nextObj,
   { w with nextObj := w.nextObj + 1,
            objs := fset w.objs w.nextObj (some v),
            alive := w.alive + 1 })

/-- Destruction of a held object (the destructor decrements the
live-object counter). -/
def freeObj (w : World) (o : Nat) : World :=
  { w with objs := fset w.objs o none, alive := w.alive - 1 }

/-- Running a copy policy on the value of the held object: `default_copy`
allocates a copy, the counting copier additionally increments the copy
counter, `throwing_copier` raises (`none`) without any effect. -/
def runCopier (cop : Copier) (w : World) (v : Int) : Option Nat × World :=
  match cop with
  | Copier.throwing => (none, w)
  | Copier.defaultC =>
    let r := allocObj w v
    (some r.1, r.2)
  | Copier.counting =>
    let r := allocObj w v
    (some r.1, { r.2 with copyCount := r.2.copyCount + 1 })

/-- Running a delete policy: `default_delete` deletes the object, the
counting deleter additionally increments the deletion counter. -/
def runDeleter (del : Deleter) (w : World) (o : Nat) : World :=
  match del with
  | Deleter.defaultD => freeObj w o
  | Deleter.counting =>
    let w' := freeObj w o
    { w' with deleteCount := w'.deleteCount + 1 }

/-- `make_shared` of a control block: fresh address with use count 1. -/
def allocCb (w : World) (b : CB) : Nat × World :=
  (w.nextCb,
   { w with nextCb := w.nextCb + 1,
            cbs := fset w.cbs w.nextCb (some b),
            rc := fset w.rc w.nextCb 1 })

/-- Copying a `shared_ptr<shared_control_block>`: bump the use count. -/
def increfOpt (w : World) (oa : Option Nat) : World :=
  match oa with
  | none => w
  | some a => { w with rc := fset w.rc a (w.rc a + 1) }

/-- Removing a destroyed control block from the store. -/
def clearCb (w : World) (a : Nat) : World :=
  { w with cbs := fset w.cbs a none, rc := fset w.rc a 0 }

/-- Releasing one `shared_ptr` reference to a control block (fuelled: the
destruction of a delegating block recursively releases its delegate).
When the use count reaches zero the block is destroyed: an indirect block
runs its deleter on the owned object, a direct block destroys its inline
value, a delegating block drops its delegate reference. -/
def dropCbF : Nat → World → Option Nat → World
  | _, w, none => w
  | 0, w, some _ => w
  | f + 1, w, some a =>
    if w.rc a = 1 then
      match w.cbs a with
      | some (CB.indirect obj _ del) => runDeleter del (clearCb w a) obj
      | some (CB.direct obj) => freeObj (clearCb w a) obj
      | some (CB.delegating d) => dropCbF f (clearCb w a) d
      | none => { w with rc := fset w.rc a 0 }
    else
      { w with rc := fset w.rc a (w.rc a - 1) }

/-- Releasing a wrapper's `cb_` reference; fuel `a + 1` suffices because a
delegating block's delegate always has a strictly smaller address. -/
def dropCb (w : World) (oa : Option Nat) : World :=
  match oa with
  | none => w
  | some a => dropCbF (a + 1) w (some a)

/-- `shared_control_block::ptr()` (fuelled through delegating chains):
an indirect or direct block returns the address of its object; a
delegating block forwards to its delegate. -/
def cbPtrF : Nat → World → Nat → Option Nat
  | 0, _, _ => none
  | f + 1, w, a =>
    match w.cbs a with
    | some (CB.indirect obj _ _) => some obj
    | some (CB.direct obj) => some obj
    | some (CB.delegating (some d)) => cbPtrF f w d
    | some (CB.delegating none) => none
    | none => none

/-- `ptr()` with the canonical sufficient fuel. -/
def cbPtr (w : World) (a : Nat) : Option Nat :=
  cbPtrF (a + 1) w a

/-- `shared_control_block::clone()` (fuelled): an indirect block runs its
copier on the owned value and wraps the result in a fresh indirect block
with the same policies; a direct block copy-constructs its value into a
fresh direct block; a delegating block clones its delegate and wraps the
result in a fresh delegating block.  `none` is a raised exception. -/
def cloneCbF : Nat → World → Nat → Option Nat × World
  | 0, w, _ => (none, w)
  | f + 1, w, a =>
    match w.cbs a with
    | some (CB.indirect obj cop del) =>
      match w.objs obj with
      | none => (none, w)
      | some v =>
        match runCopier cop w v with
        | (none, w₁) => (none, w₁)
        | (some o₁, w₁) =>
          let r := allocCb w₁ (CB.indirect o₁ cop del)
          (some r.1, r.2)
    | some (CB.direct obj) =>
      match w.objs obj with
      | none => (none, w)
      | some v =>
        let r := allocObj w v
        let r₂ := allocCb r.2 (CB.direct r.1)
        (some r₂.1, r₂.2)
    | some (CB.delegating none) => (none, w)
    | some (CB.delegating (some d)) =>
      match cloneCbF f w d with
      | (none, w₁) => (none, w₁)
      | (some d₁, w₁) =>
        let r := allocCb w₁ (CB.delegating (some d₁))
        (some r.1, r.2)
    | none => (none, w)

/-- The delegation chain of addresses starting at a block reference. -/
def chainF : Nat → World → Option Nat → List Nat
  | 0, _, _ => []
  | _, _, none => []
  | f + 1, w, some a =>
    a :: (match w.cbs a with
          | some (CB.delegating d) => chainF f w d
          | _ => [])

/-- `copy_on_write<T>`: the non-owning access pointer `ptr_` and the
`shared_ptr` control-block reference `cb_`. -/
structure Wrapper where
  ptr : Option Nat
  cb : Option Nat
deriving DecidableEq, Repr

/-- The default constructor: `{nullptr, nullptr}`. -/
def emptyWrapper : Wrapper := ⟨none, none⟩

/-- The raw-pointer constructor: a null pointer produces the empty state;
otherwise a fresh indirect block adopts the pointer and `ptr_ = u`. -/
def fromPtr (w : World) (u : Option Nat) (cop : Copier) (del : Deleter) :
    Wrapper × World :=
  match u with
  | none => (emptyWrapper, w)
  | some p =>
    let r := allocCb w (CB.indirect p cop del)
    (⟨some p, some r.1⟩, r.2)

/-- The value constructor `copy_on_write(U u)`: heap-allocates a copy of
the value and delegates to the raw-pointer constructor with default
policies. -/
def valueCtor (w : World) (v : Int) : Wrapper × World :=
  let r := allocObj w v
  fromPtr r.2 (some r.1) Copier.defaultC Deleter.defaultD

/-- `make_copy_on_write<T>(ts...)`: builds a direct block in place and sets
`ptr_` from it. -/
def makeCow (w : World) (v : Int) : Wrapper × World :=
  let r := allocObj w v
  let r₂ := allocCb r.2 (CB.direct r.1)
  (⟨some r.1, some r₂.1⟩, r₂.2)

/-- The same-type copy constructor: shares the control block (copies the
`shared_ptr`, bumping the use count) and copies the access pointer. -/
def copyCtor (w : World) (src : Wrapper) : Wrapper × World :=
  (⟨src.ptr, src.cb⟩, increfOpt w src.cb)

/-- The converting copy constructor `copy_on_write(const copy_on_write<U>&)`:
copies the source (sharing its block), then moves that reference into a
fresh delegating block; built even when the source is empty. -/
def convCopyCtor (w : World) (src : Wrapper) : Wrapper × World :=
  let w₁ := increfOpt w src.cb
  let r := allocCb w₁ (CB.delegating src.cb)
  (⟨src.ptr, some r.1⟩, r.2)

/-- The same-type move constructor: steals both fields and nulls the
source's access pointer (its `cb_` is moved-from, hence null). -/
def moveCtor (w : World) (src : Wrapper) : World × Wrapper × Wrapper :=
  (w, ⟨src.ptr, src.cb⟩, emptyWrapper)

/-- The converting move constructor `copy_on_write(copy_on_write<U>&&)`:
moves the source's block reference into a fresh delegating block; built
even when the source is empty. -/
def convMoveCtor (w : World) (src : Wrapper) : World × Wrapper × Wrapper :=
  let r := allocCb w (CB.delegating src.cb)
  (r.2, ⟨src.ptr, some r.1⟩, emptyWrapper)

/-- The `&p == this` branch of the same-type copy assignment: no-op. -/
def copyAssignSelf (w : World) (c : Wrapper) : World × Wrapper := (w, c)

/-- Same-type copy assignment between distinct objects: an empty source
(`!p`) resets the destination's block reference and pointer; otherwise the
source's block is cloned first, and only on success are `ptr_` and `cb_`
replaced (releasing the old block reference). -/
def copyAssign (f : Nat) (w : World) (dst src : Wrapper) :
    Bool × Wrapper × World :=
  match src.ptr with
  | none => (false, emptyWrapper, dropCb w dst.cb)
  | some _ =>
    match src.cb with
    | none => (true, dst, w)
    | some a =>
      match cloneCbF f w a with
      | (none, w₁) => (true, dst, w₁)
      | (some a₁, w₁) => (false, ⟨cbPtr w₁ a₁, some a₁⟩, dropCb w₁ dst.cb)

/-- The `&p == this` branch of the same-type move assignment: no-op. -/
def moveAssignSelf (w : World) (c : Wrapper) : World × Wrapper := (w, c)

/-- Same-type move assignment between distinct objects: releases the
destination's old block reference, steals the source's fields, and nulls
the source's pointer. -/
def moveAssign (w : World) (dst src : Wrapper) : World × Wrapper × Wrapper :=
  (dropCb w dst.cb, ⟨src.ptr, src.cb⟩, emptyWrapper)

/-- Converting move assignment `operator=(copy_on_write<U>&&)`: wraps the
source's block reference in a fresh delegating block (built even when the
source is empty), releases the destination's old reference, and takes the
source's pointer. -/
def convMoveAssign (w : World) (dst src : Wrapper) :
    World × Wrapper × Wrapper :=
  let r := allocCb w (CB.delegating src.cb)
  (dropCb r.2 dst.cb, ⟨src.ptr, some r.1⟩, emptyWrapper)

/-- Converting copy assignment `operator=(const copy_on_write<U>&)`:
copy-constructs a temporary from the source and converting-move-assigns
it into the destination. -/
def convCopyAssign (w : World) (dst src : Wrapper) : World × Wrapper :=
  let t := copyCtor w src
  let r := convMoveAssign t.2 dst t.1
  (r.1, r.2.1)

/-- Value assignment `operator=(const U&)` and `operator=(U&&)`:
constructs a temporary from the value and move-assigns it in. -/
def valueAssign (w : World) (dst : Wrapper) (v : Int) : World × Wrapper :=
  let t := valueCtor w v
  let r := moveAssign t.2 dst t.1
  (r.1, r.2.1)

/-- `swap`: exchanges both fields, no heap effect. -/
def swapW (c₁ c₂ : Wrapper) : Wrapper × Wrapper := (c₂, c₁)

/-- `operator bool`: non-emptiness of the access pointer. -/
def wBool (c : Wrapper) : Bool := c.ptr.isSome

/-- Outcome of a dereferencing observer: a reference to the held object,
a tripped `assert`, or an unchecked null dereference. -/
inductive Access where
  | ok (p : Nat) : Access
  | assertFail : Access
  | nullDeref : Access
deriving DecidableEq, Repr

/-- `operator*`: `assert(ptr_); return *ptr_;`. -/
def opStar (c : Wrapper) : Access :=
  match c.ptr with
  | none => Access.assertFail
  | some p => Access.ok p

/-- `operator->`: `assert(ptr_); return ptr_;`. -/
def opArrow (c : Wrapper) : Access :=
  match c.ptr with
  | none => Access.assertFail
  | some p => Access.ok p

/-- `value()`: `return *ptr_;` with no assertion — an empty wrapper is an
unchecked null dereference. -/
def valueAccess (c : Wrapper) : Access :=
  match c.ptr with
  | none => Access.nullDeref
  | some p => Access.ok p

/-- The logical value observed through a wrapper's access pointer. -/
def observe (w : World) (c : Wrapper) : Option Int :=
  match c.ptr with
  | none => none
  | some p => w.objs p

/-- Writing through the pointer returned by `mutate` (e.g.
`mutate(c)->set_value(n)`). -/
def writePtr (w : World) (p : Option Nat) (n : Int) : World :=
  match p with
  | none => w
  | some a => { w with objs := fset w.objs a (some n) }

/-- `mutate`: if `ptr_` is non-null and the block's use count is not 1,
detach (`cb_ = cb_->clone(); ptr_ = cb_->ptr();`, the assignment releasing
the old reference); then return `ptr_`.  The Bool records a raised
exception (a detach on a null block, or a throwing clone). -/
def mutateF (f : Nat) (w : World) (c : Wrapper) :
    Bool × Wrapper × Option Nat × World :=
  match c.ptr with
  | none => (false, c, none, w)
  | some _ =>
    match c.cb with
    | none => (true, c, none, w)
    | some a =>
      if w.rc a = 1 then (false, c, c.ptr, w)
      else
        match cloneCbF f w a with
        | (none, w₁) => (true, c, none, w₁)
        | (some a₁, w₁) =>
          let w₂ := dropCb w₁ (some a)
          (false, ⟨cbPtr w₂ a₁, some a₁⟩, cbPtr w₂ a₁, w₂)

/-- The wrapper's destructor: releases its block reference. -/
def destroy (w : World) (c : Wrapper) : World := dropCb w c.cb

/-- Well-formedness of a single control block at its address. -/
def CbGood (w : World) (a : Nat) : CB → Prop
  | CB.indirect obj _ _ => w.objs obj ≠ none
  | CB.direct obj => w.objs obj ≠ none
  | CB.delegating none => True
  | CB.delegating (some d) => d < a ∧ w.cbs d ≠ none

/-- Heap well-formedness: addresses at or above the allocation cursors are
free, and every allocated block is good (its object is live; a delegating
block's delegate was allocated before it and is live). -/
structure WF (w : World) : Prop where
  objBound : ∀ x, w.nextObj ≤ x → w.objs x = none
  cbBound : ∀ x, w.nextCb ≤ x → w.cbs x = none
  cbGood : ∀ a b, w.cbs a = some b → CbGood w a b

/-- The wrapper invariant of the specification: `ptr_` is null iff `cb_`
is null, and when non-null `ptr_` equals the block's `ptr()`. -/
def Inv (w : World) (c : Wrapper) : Prop :=
  (c.ptr = none ↔ c.cb = none) ∧ ∀ a, c.cb = some a → cbPtr w a = c.ptr

/-! ### Basic lemmas about the heap operations -/

theorem runCopier_err (cop : Copier) (w : World) (v : Int)
    (h : (runCopier cop w v).1 = none) : (runCopier cop w v).2 = w := by
  cases cop <;> simp [runCopier, allocObj] at h ⊢

theorem cloneCbF_err : ∀ (f : Nat) (w : World) (a : Nat),
    (cloneCbF f w a).1 = none → (cloneCbF f w a).2 = w := by
  intro f
  induction f with
  | zero => intro w a _; rfl
  | succ f ih =>
    intro w a h
    simp only [cloneCbF] at h ⊢
    cases hcb : w.cbs a with
    | none => rfl
    | some b =>
      cases b with
      | indirect obj cop del =>
        simp only [hcb] at h ⊢
        cases hobj : w.objs obj with
        | none => rfl
        | some v =>
          simp only [hobj] at h ⊢
          cases hcp : runCopier cop w v with
          | mk o w₁ =>
            cases o with
            | none =>
              simp only [hcp]
              have := runCopier_err cop w v (by rw [hcp])
              rw [hcp] at this
              exact this
            | some o₁ => simp [hcp] at h
      | direct obj =>
        simp only [hcb] at h ⊢
        cases hobj : w.objs obj with
        | none => rfl
        | some v => simp [hobj] at h
      | delegating d =>
        cases d with
        | none => rfl
        | some d₀ =>
          simp only [hcb] at h ⊢
          cases hcl : cloneCbF f w d₀ with
          | mk o w₁ =>
            cases o with
            | none =>
              simp only [hcl]
              have := ih w d₀ (by rw [hcl])
              rw [hcl] at this
              exact this
            | some d₁ => simp [hcl] at h

theorem dropCbF_copyCount : ∀ (f : Nat) (w : World) (oa : Option Nat),
    (dropCbF f w oa).copyCount = w.copyCount := by
  intro f
  induction f with
  | zero => intro w oa; cases oa <;> rfl
  | succ f ih =>
    intro w oa
    cases oa with
    | none => rfl
    | some a =>
      simp only [dropCbF]
      by_cases h : w.rc a = 1
      · simp only [h, if_pos rfl]
        cases hcb : w.cbs a with
        | none => rfl
        | some b =>
          cases b with
          | indirect obj cop del => cases del <;> rfl
          | direct obj => rfl
          | delegating d => exact ih _ _
      · simp [h]

theorem chainF_none (f : Nat) (w : World) : chainF f w none = [] := by
  cases f <;> rfl

theorem cbPtrF_mono : ∀ (f g : Nat) (w : World) (a p : Nat),
    cbPtrF f w a = some p → f ≤ g → cbPtrF g w a = some p := by
  intro f
  induction f with
  | zero => intro g w a p h _; simp [cbPtrF] at h
  | succ f ih =>
    intro g w a p h hfg
    cases g with
    | zero => omega
    | succ g =>
      simp only [cbPtrF] at h ⊢
      cases hcb : w.cbs a with
      | none =>
        rw [hcb] at h
        exact Option.noConfusion (show (none : Option Nat) = some p from h)
      | some b =>
        rw [hcb] at h
        cases b with
        | indirect obj cop del => exact h
        | direct obj => exact h
        | delegating d =>
          cases d with
          | none =>
            exact Option.noConfusion (show (none : Option Nat) = some p from h)
          | some d₀ =>
            exact ih g w d₀ p (show cbPtrF f w d₀ = some p from h) (by omega)

theorem cbPtrF_ext (w w' : World) (h : ∀ x, w'.cbs x = w.cbs x) :
    ∀ (f : Nat) (a : Nat), cbPtrF f w' a = cbPtrF f w a := by
  intro f
  induction f with
  | zero => intro a; rfl
  | succ f ih =>
    intro a
    simp only [cbPtrF, h a]
    cases hcb : w.cbs a with
    | none => rfl
    | some b =>
      cases b with
      | indirect obj cop del => rfl
      | direct obj => rfl
      | delegating d =>
        cases d with
        | none => rfl
        | some d₀ => exact ih d₀

theorem cbPtrF_frame (w w' : World)
    (h : ∀ x, w.cbs x ≠ none → w'.cbs x = w.cbs x) :
    ∀ (f : Nat) (a p : Nat), cbPtrF f w a = some p → cbPtrF f w' a = some p := by
  intro f
  induction f with
  | zero => intro a p hp; simp [cbPtrF] at hp
  | succ f ih =>
    intro a p hp
    simp only [cbPtrF] at hp ⊢
    cases hcb : w.cbs a with
    | none =>
      rw [hcb] at hp
      exact Option.noConfusion (show (none : Option Nat) = some p from hp)
    | some b =>
      rw [hcb] at hp
      have hw' : w'.cbs a = some b := by
        rw [h a (by rw [hcb]; simp), hcb]
      rw [hw']
      cases b with
      | indirect obj cop del => exact hp
      | direct obj => exact hp
      | delegating d =>
        cases d with
        | none =>
          exact Option.noConfusion (show (none : Option Nat) = some p from hp)
        | some d₀ => exact ih d₀ p (show cbPtrF f w d₀ = some p from hp)

theorem cbPtrF_some_cbs (f : Nat) (w : World) (a p : Nat)
    (h : cbPtrF (f + 1) w a = some p) : w.cbs a ≠ none := by
  intro hn
  simp [cbPtrF, hn] at h

/-- From well-formedness: a delegating block's delegate has a strictly
smaller address. -/
theorem wfDeleg (w : World) (hwf : WF w) :
    ∀ y z, w.cbs y = some (CB.delegating (some z)) → z < y := by
  intro y z h
  exact (hwf.cbGood y _ h).1

theorem chainF_le (w : World)
    (hdeleg : ∀ y z, w.cbs y = some (CB.delegating (some z)) → z < y) :
    ∀ (f : Nat) (a x : Nat), x ∈ chainF f w (some a) → x ≤ a := by
  intro f
  induction f with
  | zero => intro a x h; simp [chainF] at h
  | succ f ih =>
    intro a x h
    simp only [chainF, List.mem_cons] at h
    rcases h with h | h
    · omega
    · cases hcb : w.cbs a with
      | none =>
        rw [hcb] at h
        exact absurd (show x ∈ ([] : List Nat) from h) (by simp)
      | some b =>
        rw [hcb] at h
        cases b with
        | indirect obj cop del =>
          exact absurd (show x ∈ ([] : List Nat) from h) (by simp)
        | direct obj =>
          exact absurd (show x ∈ ([] : List Nat) from h) (by simp)
        | delegating d =>
          cases d with
          | none =>
            have h' : x ∈ chainF f w none := h
            rw [chainF_none] at h'
            exact absurd h' (by simp)
          | some d₀ =>
            have hd : d₀ < a := hdeleg a d₀ hcb
            have := ih d₀ x (show x ∈ chainF f w (some d₀) from h)
            omega

theorem chainF_ext_above (w w' : World) (c : Nat)
    (hc : ∀ x, x ≠ c → w'.cbs x = w.cbs x)
    (hdeleg : ∀ y z, w.cbs y = some (CB.delegating (some z)) → z < y) :
    ∀ (f : Nat) (oa : Option Nat), (∀ b, oa = some b → b < c) →
      chainF f w' oa = chainF f w oa := by
  intro f
  induction f with
  | zero => intro oa _; cases oa <;> rfl
  | succ f ih =>
    intro oa hb
    cases oa with
    | none => rfl
    | some b =>
      have hbc : b < c := hb b rfl
      show b :: _ = b :: _
      rw [hc b (by omega)]
      cases hcb : w.cbs b with
      | none => rfl
      | some bb =>
        cases bb with
        | indirect obj cop del => rfl
        | direct obj => rfl
        | delegating d =>
          cases d with
          | none =>
            show b :: chainF f w' none = b :: chainF f w none
            rw [chainF_none, chainF_none]
          | some d₀ =>
            have hd : d₀ < b := hdeleg b d₀ hcb
            show b :: chainF f w' (some d₀) = b :: chainF f w (some d₀)
            rw [ih (some d₀) (by intro b' hh; injection hh with hh; omega)]

theorem chainF_clear_subset (w : World) (a : Nat) :
    ∀ (f : Nat) (oa : Option Nat) (x : Nat),
      x ∈ chainF f (clearCb w a) oa → x ∈ chainF f w oa := by
  intro f
  induction f with
  | zero => intro oa x h; cases oa <;> simp [chainF] at h
  | succ f ih =>
    intro oa x h
    cases oa with
    | none => simp [chainF] at h
    | some b =>
      simp only [chainF, List.mem_cons] at h ⊢
      rcases h with h | h
      · exact Or.inl h
      · by_cases hba : b = a
        · subst hba
          have hcl : (clearCb w b).cbs b = none := by simp [clearCb]
          rw [hcl] at h
          exact absurd (show x ∈ ([] : List Nat) from h) (by simp)
        · have hcl : (clearCb w a).cbs b = w.cbs b := by
            simp [clearCb, fset_other _ _ hba]
          rw [hcl] at h
          cases hcb : w.cbs b with
          | none =>
            rw [hcb] at h
            exact absurd (show x ∈ ([] : List Nat) from h) (by simp)
          | some bb =>
            rw [hcb] at h
            cases bb with
            | indirect obj cop del =>
              exact absurd (show x ∈ ([] : List Nat) from h) (by simp)
            | direct obj =>
              exact absurd (show x ∈ ([] : List Nat) from h) (by simp)
            | delegating d =>
              exact Or.inr (ih d x (show x ∈ chainF f (clearCb w a) d from h))

theorem dropCbF_cbs_outside : ∀ (f : Nat) (w : World) (a x : Nat),
    x ∉ chainF f w (some a) → (dropCbF f w (some a)).cbs x = w.cbs x := by
  intro f
  induction f with
  | zero => intro w a x _; rfl
  | succ f ih =>
    intro w a x hx
    simp only [chainF, List.mem_cons, not_or] at hx
    obtain ⟨hxa, hxtail⟩ := hx
    simp only [dropCbF]
    by_cases hrc : w.rc a = 1
    · rw [if_pos hrc]
      cases hcb : w.cbs a with
      | none => rfl
      | some b =>
        cases b with
        | indirect obj cop del =>
          show (runDeleter del (clearCb w a) obj).cbs x = w.cbs x
          cases del <;> simp [runDeleter, freeObj, clearCb, fset_other _ _ hxa]
        | direct obj =>
          show (freeObj (clearCb w a) obj).cbs x = w.cbs x
          simp [freeObj, clearCb, fset_other _ _ hxa]
        | delegating d =>
          rw [hcb] at hxtail
          cases d with
          | none =>
            show (dropCbF f (clearCb w a) none).cbs x = w.cbs x
            cases f <;> simp [dropCbF, clearCb, fset_other _ _ hxa]
          | some d₀ =>
            have hxt : x ∉ chainF f w (some d₀) :=
              show x ∉ chainF f w (some d₀) from hxtail
            have hx' : x ∉ chainF f (clearCb w a) (some d₀) :=
              fun hh => hxt (chainF_clear_subset w a f (some d₀) x hh)
            show (dropCbF f (clearCb w a) (some d₀)).cbs x = w.cbs x
            rw [ih (clearCb w a) d₀ x hx']
            simp [clearCb, fset_other _ _ hxa]
    · rw [if_neg hrc]

theorem dropCbF_rcOnly (f : Nat) (w : World) (a : Nat) (h : w.rc a ≠ 1) :
    dropCbF (f + 1) w (some a) =
      { w with rc := fset w.rc a (w.rc a - 1) } := by
  simp [dropCbF, h]

theorem runCopier_ok (cop : Copier) (w : World) (v : Int) (o₁ : Nat)
    (wc : World) (h : runCopier cop w v = (some o₁, wc)) :
    o₁ = w.nextObj ∧ wc.nextObj = w.nextObj + 1 ∧
    wc.objs = fset w.objs w.nextObj (some v) ∧
    wc.cbs = w.cbs ∧ wc.rc = w.rc ∧ wc.nextCb = w.nextCb ∧
    wc.alive = w.alive + 1 := by
  cases cop <;> simp [runCopier, allocObj] at h
  · obtain ⟨h1, h2⟩ := h
    subst h1; subst h2
    exact ⟨rfl, rfl, rfl, rfl, rfl, rfl, rfl⟩
  · obtain ⟨h1, h2⟩ := h
    subst h1; subst h2
    exact ⟨rfl, rfl, rfl, rfl, rfl, rfl, rfl⟩

theorem WF_increfOpt (w : World) (oa : Option Nat) (hwf : WF w) :
    WF (increfOpt w oa) := by
  cases oa with
  | none => exact hwf
  | some a => exact ⟨hwf.objBound, hwf.cbBound, hwf.cbGood⟩

theorem CbGood_mono (w w' : World) (a : Nat) (b : CB)
    (hobjs : ∀ x, w.objs x ≠ none → w'.objs x ≠ none)
    (hcbs : ∀ x, w.cbs x ≠ none → w'.cbs x ≠ none)
    (h : CbGood w a b) : CbGood w' a b := by
  cases b with
  | indirect obj cop del => exact hobjs obj h
  | direct obj => exact hobjs obj h
  | delegating d =>
    cases d with
    | none => trivial
    | some z => exact ⟨h.1, hcbs z h.2⟩

theorem WF_of_fields (w w' : World) (h1 : w'.nextObj = w.nextObj)
    (h2 : w'.objs = w.objs) (h3 : w'.nextCb = w.nextCb)
    (h4 : w'.cbs = w.cbs) (hwf : WF w) : WF w' := by
  constructor
  · intro x hx
    rw [h2]
    exact hwf.objBound x (by rw [h1] at hx; exact hx)
  · intro x hx
    rw [h4]
    exact hwf.cbBound x (by rw [h3] at hx; exact hx)
  · intro y b hy
    rw [h4] at hy
    refine CbGood_mono w w' y b ?_ ?_ (hwf.cbGood y b hy)
    · intro x hx; rw [h2]; exact hx
    · intro x hx; rw [h4]; exact hx

theorem WF_allocObj (w : World) (v : Int) (hwf : WF w) :
    WF (allocObj w v).2 := by
  constructor
  · intro x hx
    have hx' : w.nextObj + 1 ≤ x := hx
    show fset w.objs w.nextObj (some v) x = none
    rw [fset_other _ _ (by omega : x ≠ w.nextObj)]
    exact hwf.objBound x (by omega)
  · intro x hx
    exact hwf.cbBound x hx
  · intro y b hy
    refine CbGood_mono w _ y b ?_ (fun x hx => hx) (hwf.cbGood y b hy)
    intro x hx
    show fset w.objs w.nextObj (some v) x ≠ none
    by_cases hxx : x = w.nextObj
    · subst hxx; rw [fset_self]; simp
    · rw [fset_other _ _ hxx]; exact hx

theorem WF_allocCb (w : World) (b : CB) (hwf : WF w)
    (hgood : CbGood w w.nextCb b) : WF (allocCb w b).2 := by
  have hcbsmono : ∀ x, w.cbs x ≠ none →
      fset w.cbs w.nextCb (some b) x ≠ none := by
    intro x hx
    by_cases hxx : x = w.nextCb
    · subst hxx; rw [fset_self]; simp
    · rw [fset_other _ _ hxx]; exact hx
  constructor
  · intro x hx
    exact hwf.objBound x hx
  · intro x hx
    have hx' : w.nextCb + 1 ≤ x := hx
    show fset w.cbs w.nextCb (some b) x = none
    rw [fset_other _ _ (by omega : x ≠ w.nextCb)]
    exact hwf.cbBound x (by omega)
  · intro y bb hy
    have hy' : fset w.cbs w.nextCb (some b) y = some bb := hy
    by_cases hyn : y = w.nextCb
    · subst hyn
      rw [fset_self] at hy'
      injection hy' with hy'
      subst hy'
      exact CbGood_mono w _ _ _ (fun x hx => hx) hcbsmono hgood
    · rw [fset_other _ _ hyn] at hy'
      exact CbGood_mono w _ y bb (fun x hx => hx) hcbsmono
        (hwf.cbGood y bb hy')

theorem cbPtr_of_indirect (W : World) (c obj : Nat) (cop : Copier)
    (del : Deleter) (h : W.cbs c = some (CB.indirect obj cop del)) :
    cbPtr W c = some obj := by
  show cbPtrF (c + 1) W c = some obj
  simp only [cbPtrF]
  rw [h]

theorem cbPtr_of_direct (W : World) (c obj : Nat)
    (h : W.cbs c = some (CB.direct obj)) : cbPtr W c = some obj := by
  show cbPtrF (c + 1) W c = some obj
  simp only [cbPtrF]
  rw [h]

theorem cbPtrF_of_delegating (W : World) (g c d : Nat)
    (h : W.cbs c = some (CB.delegating (some d))) :
    cbPtrF (g + 1) W c = cbPtrF g W d := by
  simp only [cbPtrF]
  rw [h]

theorem chainF_of_indirect (W : World) (g c obj : Nat) (cop : Copier)
    (del : Deleter) (h : W.cbs c = some (CB.indirect obj cop del)) :
    chainF (g + 1) W (some c) = [c] := by
  simp only [chainF]
  rw [h]

theorem chainF_of_direct (W : World) (g c obj : Nat)
    (h : W.cbs c = some (CB.direct obj)) :
    chainF (g + 1) W (some c) = [c] := by
  simp only [chainF]
  rw [h]

theorem chainF_of_delegating (W : World) (g c : Nat) (dd : Option Nat)
    (h : W.cbs c = some (CB.delegating dd)) :
    chainF (g + 1) W (some c) = c :: chainF g W dd := by
  simp only [chainF]
  rw [h]

/-- The full specification of a successful `clone()`: the heap stays
well-formed; all previously allocated blocks, objects and use counts are
untouched; the resulting block is fresh with use count 1; its delegation
chain lies entirely in the freshly allocated region; and it points to a
freshly allocated object carrying the same value as the object reached
through the cloned block. -/
theorem cloneCbF_spec : ∀ (f : Nat) (w : World) (a a₁ : Nat) (w₁ : World),
    WF w → cloneCbF f w a = (some a₁, w₁) →
    WF w₁ ∧
    w.nextCb ≤ a₁ ∧ w₁.nextCb = a₁ + 1 ∧ w₁.nextObj = w.nextObj + 1 ∧
    (∀ x, x < w.nextCb → w₁.cbs x = w.cbs x) ∧
    (∀ x, w.objs x ≠ none → w₁.objs x = w.objs x) ∧
    (∀ x, x < w.nextCb → w₁.rc x = w.rc x) ∧
    w₁.rc a₁ = 1 ∧
    (∀ x, x ∈ chainF (a₁ + 1) w₁ (some a₁) → w.nextCb ≤ x) ∧
    ∃ p v p₁, cbPtr w a = some p ∧ w.objs p = some v ∧
      cbPtr w₁ a₁ = some p₁ ∧ w₁.objs p₁ = some v ∧
      w.nextObj ≤ p₁ ∧ p₁ < w₁.nextObj := by
  intro f
  induction f with
  | zero =>
    intro w a a₁ w₁ hwf h
    exact absurd (congrArg Prod.fst h) (by simp [cloneCbF])
  | succ f ih =>
    intro w a a₁ w₁ hwf h
    simp only [cloneCbF] at h
    split at h
    · -- indirect block
      rename_i obj cop del hcb
      split at h
      · exact absurd (congrArg Prod.fst h) (by simp)
      · rename_i v hobj
        split at h
        · exact absurd (congrArg Prod.fst h) (by simp)
        · rename_i o₁ wc hcp
          simp only [allocCb] at h
          rw [Prod.mk.injEq] at h
          obtain ⟨h1, h2⟩ := h
          injection h1 with h1
          subst h1
          subst h2
          obtain ⟨ho, hno, hobjs, hcbs, hrc, hncb, hal⟩ :=
            runCopier_ok cop w v o₁ wc hcp
          subst ho
          have hwfwc : WF wc :=
            WF_of_fields (allocObj w v).2 wc hno hobjs hncb hcbs
              (WF_allocObj w v hwf)
          have hgood : CbGood wc wc.nextCb
              (CB.indirect w.nextObj cop del) := by
            show wc.objs w.nextObj ≠ none
            rw [hobjs, fset_self]
            simp
          refine ⟨?_, ?_, rfl, hno, ?_, ?_, ?_, fset_self _ _ _, ?_, ?_⟩
          · exact WF_allocCb wc _ hwfwc hgood
          · omega
          · intro x hxlt
            show fset wc.cbs wc.nextCb _ x = w.cbs x
            rw [fset_other _ _ (by omega : x ≠ wc.nextCb), hcbs]
          · intro x hx
            have hxn : x ≠ w.nextObj := by
              intro hh
              exact hx (hh ▸ hwf.objBound w.nextObj (le_refl _))
            show wc.objs x = w.objs x
            rw [hobjs, fset_other _ _ hxn]
          · intro x hx
            show fset wc.rc wc.nextCb 1 x = w.rc x
            rw [fset_other _ _ (by omega : x ≠ wc.nextCb), hrc]
          · intro x hx
            rw [chainF_of_indirect _ _ _ w.nextObj cop del
              (fset_self _ _ _)] at hx
            have : x = wc.nextCb := by
              rcases List.mem_singleton.mp hx with h
              exact h
            omega
          · refine ⟨obj, v, w.nextObj, ?_, hobj, ?_, ?_, le_refl _, ?_⟩
            · exact cbPtr_of_indirect w a obj cop del hcb
            · exact cbPtr_of_indirect _ wc.nextCb w.nextObj cop del
                (fset_self _ _ _)
            · show wc.objs w.nextObj = some v
              rw [hobjs, fset_self]
            · show w.nextObj < wc.nextObj
              omega
    · -- direct block
      rename_i obj hcb
      split at h
      · exact absurd (congrArg Prod.fst h) (by simp)
      · rename_i v hobj
        simp only [allocObj, allocCb] at h
        rw [Prod.mk.injEq] at h
        obtain ⟨h1, h2⟩ := h
        injection h1 with h1
        subst h1
        subst h2
        have hwfo : WF (allocObj w v).2 := WF_allocObj w v hwf
        have hgood : CbGood (allocObj w v).2 (allocObj w v).2.nextCb
            (CB.direct w.nextObj) := by
          show fset w.objs w.nextObj (some v) w.nextObj ≠ none
          rw [fset_self]
          simp
        refine ⟨?_, le_refl _, rfl, rfl, ?_, ?_, ?_, fset_self _ _ _,
          ?_, ?_⟩
        · exact WF_allocCb (allocObj w v).2 _ hwfo hgood
        · intro x hxlt
          show fset w.cbs w.nextCb _ x = w.cbs x
          rw [fset_other _ _ (by omega : x ≠ w.nextCb)]
        · intro x hx
          have hxn : x ≠ w.nextObj := by
            intro hh
            exact hx (hh ▸ hwf.objBound w.nextObj (le_refl _))
          show fset w.objs w.nextObj (some v) x = w.objs x
          rw [fset_other _ _ hxn]
        · intro x hx
          show fset w.rc w.nextCb 1 x = w.rc x
          rw [fset_other _ _ (by omega : x ≠ w.nextCb)]
        · intro x hx
          rw [chainF_of_direct _ _ _ w.nextObj (fset_self _ _ _)] at hx
          have : x = w.nextCb := List.mem_singleton.mp hx
          omega
        · refine ⟨obj, v, w.nextObj, ?_, hobj, ?_, ?_, le_refl _, ?_⟩
          · exact cbPtr_of_direct w a obj hcb
          · exact cbPtr_of_direct _ w.nextCb w.nextObj (fset_self _ _ _)
          · show fset w.objs w.nextObj (some v) w.nextObj = some v
            rw [fset_self]
          · show w.nextObj < w.nextObj + 1
            omega
    · -- delegating block over a null delegate: clone raises
      exact absurd (congrArg Prod.fst h) (by simp)
    · -- delegating block
      rename_i d hcb
      split at h
      · exact absurd (congrArg Prod.fst h) (by simp)
      · rename_i d₁ wi hcl
        simp only [allocCb] at h
        rw [Prod.mk.injEq] at h
        obtain ⟨h1, h2⟩ := h
        injection h1 with h1
        subst h1
        subst h2
        obtain ⟨hwfi, hle1, hni, hnoi, hfcbs, hfobjs, hfrc, hrc1, hchain,
          p, v, p₁, hp, hv, hp₁, hv₁, hb1, hb2⟩ := ih w d d₁ wi hwf hcl
        have hda : d < a := (hwf.cbGood a _ hcb).1
        have hd₁cbs : wi.cbs d₁ ≠ none :=
          cbPtrF_some_cbs d₁ wi d₁ p₁ hp₁
        have hgood : CbGood wi wi.nextCb (CB.delegating (some d₁)) :=
          ⟨by omega, hd₁cbs⟩
        refine ⟨?_, by omega, rfl, hnoi, ?_, ?_, ?_, fset_self _ _ _,
          ?_, ?_⟩
        · exact WF_allocCb wi _ hwfi hgood
        · intro x hxlt
          have h5 := hfcbs x hxlt
          have hxn : x ≠ wi.nextCb := by omega
          show fset wi.cbs wi.nextCb _ x = w.cbs x
          rw [fset_other _ _ hxn]
          exact h5
        · intro x hx
          exact hfobjs x hx
        · intro x hx
          show fset wi.rc wi.nextCb 1 x = w.rc x
          rw [fset_other _ _ (by omega : x ≠ wi.nextCb)]
          exact hfrc x hx
        · intro x hx
          rw [chainF_of_delegating _ wi.nextCb wi.nextCb (some d₁)
            (fset_self _ _ _)] at hx
          rw [List.mem_cons] at hx
          rcases hx with hx | hx
          · omega
          · have hx' : x ∈ chainF wi.nextCb
                (allocCb wi (CB.delegating (some d₁))).2 (some d₁) := hx
            have hext : chainF wi.nextCb
                (allocCb wi (CB.delegating (some d₁))).2 (some d₁) =
                chainF wi.nextCb wi (some d₁) := by
              refine chainF_ext_above wi _ wi.nextCb ?_ (wfDeleg wi hwfi)
                wi.nextCb (some d₁) ?_
              · intro y hy
                show fset wi.cbs wi.nextCb _ y = wi.cbs y
                exact fset_other _ _ hy
              · intro b hb
                injection hb with hb
                omega
            rw [hext, hni] at hx'
            exact hchain x hx'
        · refine ⟨p, v, p₁, ?_, hv, ?_, hv₁, hb1, hb2⟩
          · rw [show cbPtr w a = cbPtrF a w d from
              cbPtrF_of_delegating w a a d hcb]
            exact cbPtrF_mono (d + 1) a w d p hp (by omega)
          · have hfr : cbPtrF (d₁ + 1)
                (allocCb wi (CB.delegating (some d₁))).2 d₁ = some p₁ := by
              refine cbPtrF_frame wi _ ?_ (d₁ + 1) d₁ p₁ hp₁
              intro y hy
              have hyn : y ≠ wi.nextCb := by
                intro hh
                apply hy
                rw [hh]
                exact hwfi.cbBound _ (le_refl _)
              show fset wi.cbs wi.nextCb _ y = wi.cbs y
              exact fset_other _ _ hyn
            show cbPtrF (wi.nextCb + 1)
              (allocCb wi (CB.delegating (some d₁))).2 wi.nextCb = some p₁
            rw [cbPtrF_of_delegating _ wi.nextCb wi.nextCb d₁
              (fset_self _ _ _)]
            rw [hni]
            exact hfr
    · -- unallocated block: clone is unreachable
      exact absurd (congrArg Prod.fst h) (by simp)

/-- Releasing a non-last reference only decrements the use count. -/
theorem dropCb_rcOnly (w : World) (a : Nat) (h : w.rc a ≠ 1) :
    dropCb w (some a) = { w with rc := fset w.rc a (w.rc a - 1) } :=
  dropCbF_rcOnly a w a h

/-- The empty wrapper satisfies the invariant in any heap. -/
theorem Inv_empty (w : World) : Inv w emptyWrapper := by
  constructor
  · exact ⟨fun _ => rfl, fun _ => rfl⟩
  · intro a ha
    exact Option.noConfusion (show (none : Option Nat) = some a from ha)

theorem chainF_ext_all (w w' : World) (h : ∀ x, w'.cbs x = w.cbs x) :
    ∀ (g : Nat) (oa : Option Nat), chainF g w' oa = chainF g w oa := by
  intro g
  induction g with
  | zero => intro oa; cases oa <;> rfl
  | succ g ih =>
    intro oa
    cases oa with
    | none => rfl
    | some b =>
      show b :: _ = b :: _
      rw [h b]
      cases hcb : w.cbs b with
      | none => rfl
      | some bb =>
        cases bb with
        | indirect obj cop del => rfl
        | direct obj => rfl
        | delegating d =>
          show b :: chainF g w' d = b :: chainF g w d
          rw [ih d]

theorem chainF_ext_below (w w' : World) (B : Nat)
    (hc : ∀ x, x < B → w'.cbs x = w.cbs x)
    (hdeleg : ∀ y z, w.cbs y = some (CB.delegating (some z)) → z < y) :
    ∀ (g : Nat) (oa : Option Nat), (∀ b, oa = some b → b < B) →
      chainF g w' oa = chainF g w oa := by
  intro g
  induction g with
  | zero => intro oa _; cases oa <;> rfl
  | succ g ih =>
    intro oa hb
    cases oa with
    | none => rfl
    | some b =>
      have hbB : b < B := hb b rfl
      show b :: _ = b :: _
      rw [hc b hbB]
      cases hcb : w.cbs b with
      | none => rfl
      | some bb =>
        cases bb with
        | indirect obj cop del => rfl
        | direct obj => rfl
        | delegating d =>
          cases d with
          | none =>
            show b :: chainF g w' none = b :: chainF g w none
            rw [chainF_none, chainF_none]
          | some d₀ =>
            have hd : d₀ < b := hdeleg b d₀ hcb
            show b :: chainF g w' (some d₀) = b :: chainF g w (some d₀)
            rw [ih (some d₀) (by intro b' hb'; injection hb' with hb'; omega)]

/-- `ptr()` reads the block store only along the delegation chain. -/
theorem cbPtrF_congr_chain (w w' : World) :
    ∀ (g c : Nat),
      (∀ x, x ∈ chainF g w (some c) → w'.cbs x = w.cbs x) →
      cbPtrF g w' c = cbPtrF g w c := by
  intro g
  induction g with
  | zero => intro c _; rfl
  | succ g ih =>
    intro c hc
    have hcc : w'.cbs c = w.cbs c := by
      refine hc c ?_
      show c ∈ c :: _
      exact List.mem_cons_self c _
    simp only [cbPtrF, hcc]
    cases hcb : w.cbs c with
    | none => rfl
    | some b =>
      cases b with
      | indirect obj cop del => rfl
      | direct obj => rfl
      | delegating d =>
        cases d with
        | none => rfl
        | some d₀ =>
          refine ih d₀ (fun x hx => hc x ?_)
          rw [chainF_of_delegating w g c (some d₀) hcb]
          exact List.mem_cons_of_mem _ hx

/-- Releasing a reference to `b` preserves `ptr()` of any block whose
delegation chain avoids `b`'s chain (or when the reference is shared). -/
theorem drop_preserve_cbPtr (w : World) (b keep p : Nat)
    (hsafe : 2 ≤ w.rc b ∨
      ∀ x, x ∈ chainF (b + 1) w (some b) →
        x ∉ chainF (keep + 1) w (some keep))
    (hkeep : cbPtr w keep = some p) :
    cbPtr (dropCb w (some b)) keep = some p := by
  rcases hsafe with h2 | hdisj
  · rw [dropCb_rcOnly w b (by omega)]
    have hx : cbPtrF (keep + 1)
        { w with rc := fset w.rc b (w.rc b - 1) } keep =
        cbPtrF (keep + 1) w keep :=
      cbPtrF_ext w { w with rc := fset w.rc b (w.rc b - 1) }
        (fun _ => rfl) (keep + 1) keep
    exact hx.trans hkeep
  · show cbPtrF (keep + 1) (dropCbF (b + 1) w (some b)) keep = some p
    rw [cbPtrF_congr_chain w (dropCbF (b + 1) w (some b)) (keep + 1) keep
      (fun x hx => dropCbF_cbs_outside (b + 1) w b x
        (fun hm => hdisj x hm hx))]
    exact hkeep

/-- Dropping the destination's old reference is safe for the source's
chain: the reference is shared, or the two delegation chains are
disjoint (at any fuel). -/
def DropSafe (w : World) (victim : Option Nat) (keep : Nat) : Prop :=
  ∀ b, victim = some b →
    2 ≤ w.rc b ∨
    ∀ g x, x ∈ chainF g w (some b) → ∀ g', x ∉ chainF g' w (some keep)

theorem DropSafe_incref (w : World) (oa victim : Option Nat) (keep : Nat)
    (h : DropSafe w victim keep) :
    DropSafe (increfOpt w oa) victim keep := by
  intro b hb
  rcases h b hb with h2 | hd
  · left
    cases oa with
    | none => exact h2
    | some c =>
      show 2 ≤ fset w.rc c (w.rc c + 1) b
      by_cases hbc : b = c
      · subst hbc
        rw [fset_self]
        omega
      · rw [fset_other _ _ hbc]
        exact h2
  · right
    intro g x hx g' hx'
    have hcbs : ∀ y, (increfOpt w oa).cbs y = w.cbs y := by
      intro y
      cases oa <;> rfl
    rw [chainF_ext_all w _ hcbs g (some b)] at hx
    rw [chainF_ext_all w _ hcbs g' (some keep)] at hx'
    exact hd g x hx g' hx'

theorem cbPtr_incref (w : World) (oa : Option Nat) (a : Nat) :
    cbPtr (increfOpt w oa) a = cbPtr w a :=
  cbPtrF_ext w (increfOpt w oa) (fun _ => by cases oa <;> rfl) (a + 1) a

/-- A wrapper built by the raw-pointer constructor satisfies the
invariant. -/
theorem Inv_fromPtr_some (W : World) (q : Nat) (cop : Copier)
    (del : Deleter) :
    Inv (fromPtr W (some q) cop del).2 (fromPtr W (some q) cop del).1 := by
  constructor
  · constructor
    · intro hh
      exact Option.noConfusion (show (some q : Option Nat) = none from hh)
    · intro hh
      exact Option.noConfusion
        (show (some W.nextCb : Option Nat) = none from hh)
  · intro a ha
    have haa : a = W.nextCb := by
      injection ha with ha
      exact ha.symm
    subst haa
    exact cbPtr_of_indirect _ W.nextCb q cop del (fset_self _ _ _)

/-- A wrapper built by the factory satisfies the invariant. -/
theorem Inv_makeCow (W : World) (u : Int) :
    Inv (makeCow W u).2 (makeCow W u).1 := by
  constructor
  · constructor
    · intro hh
      exact Option.noConfusion
        (show (some W.nextObj : Option Nat) = none from hh)
    · intro hh
      exact Option.noConfusion
        (show (some W.nextCb : Option Nat) = none from hh)
  · intro a ha
    have haa : a = W.nextCb := by
      injection ha with ha
      exact ha.symm
    subst haa
    exact cbPtr_of_direct _ W.nextCb W.nextObj (fset_self _ _ _)

/-- A freshly allocated delegating block over `sa` has the same `ptr()`
as `sa`. -/
theorem Inv_newDelegating (W : World) (p sa : Nat) (hwf : WF W)
    (hinv2 : cbPtr W sa = some p) :
    cbPtr (allocCb W (CB.delegating (some sa))).2 W.nextCb = some p := by
  have hsa_cbs : W.cbs sa ≠ none := cbPtrF_some_cbs sa W sa p hinv2
  have hsa_lt : sa < W.nextCb := by
    by_contra hh
    exact hsa_cbs (hwf.cbBound sa (by omega))
  have hframe : ∀ x, W.cbs x ≠ none →
      (allocCb W (CB.delegating (some sa))).2.cbs x = W.cbs x := by
    intro x hx
    have hxn : x ≠ W.nextCb := by
      intro hh
      exact hx (hh ▸ hwf.cbBound W.nextCb (le_refl _))
    show fset W.cbs W.nextCb _ x = W.cbs x
    exact fset_other _ _ hxn
  show cbPtrF (W.nextCb + 1) (allocCb W (CB.delegating (some sa))).2
    W.nextCb = some p
  rw [cbPtrF_of_delegating _ W.nextCb W.nextCb sa (fset_self _ _ _)]
  exact cbPtrF_mono (sa + 1) W.nextCb _ sa p
    (cbPtrF_frame W _ hframe (sa + 1) sa p hinv2) (by omega)

/-! ### C1: the mutate contract -/

/-- C1: on a non-empty wrapper, `mutate` returns the access pointer
directly, touching nothing, when the block's use count is 1; when the use
count is not 1 it replaces the wrapper's block by a freshly cloned block
(the result of `clone()`, at a new address) and returns the new access
pointer, which still observes the same logical value. -/
theorem c1_mutate_contract (f : Nat) (w : World) (c : Wrapper) (p sa : Nat)
    (v : Int) (hwf : WF w) (hp : c.ptr = some p) (hc : c.cb = some sa)
    (hinv : cbPtr w sa = some p) (hval : w.objs p = some v) :
    (w.rc sa = 1 → mutateF f w c = (false, c, some p, w)) ∧
    (w.rc sa ≠ 1 → ∀ a₁, (cloneCbF f w sa).1 = some a₁ →
      (mutateF f w c).1 = false ∧
      (mutateF f w c).2.1.cb = some a₁ ∧
      a₁ ≠ sa ∧
      (mutateF f w c).2.2.1 = (mutateF f w c).2.1.ptr ∧
      observe (mutateF f w c).2.2.2 (mutateF f w c).2.1 = some v ∧
      observe w c = some v) := by
  have hsa_cbs : w.cbs sa ≠ none := cbPtrF_some_cbs sa w sa p hinv
  have hsa_lt : sa < w.nextCb := by
    by_contra hh
    exact hsa_cbs (hwf.cbBound sa (by omega))
  obtain ⟨cp, ccb⟩ := c
  have hcp : cp = some p := hp
  have hccb : ccb = some sa := hc
  subst hcp
  subst hccb
  constructor
  · intro hrc
    simp [mutateF, hrc]
  · intro hrc a₁ hcl
    have hclp : cloneCbF f w sa = (some a₁, (cloneCbF f w sa).2) := by
      rw [← hcl]
    obtain ⟨hwf1, hle1, hni, hno, hfcbs, hfobjs, hfrc, hrc1, hchain,
      q, vv, p₁, hq, hvv, hp₁, hv₁, hb1, hb2⟩ :=
      cloneCbF_spec f w sa a₁ (cloneCbF f w sa).2 hwf hclp
    have hqp : q = p := by
      rw [hinv] at hq
      injection hq with hq
      exact hq.symm
    have hvvv : vv = v := by
      rw [hqp, hval] at hvv
      injection hvv with hvv
      exact hvv.symm
    have hv₁' : (cloneCbF f w sa).2.objs p₁ = some v := by
      rw [hv₁, hvvv]
    have hrc1' : (cloneCbF f w sa).2.rc sa ≠ 1 := by
      rw [hfrc sa hsa_lt]
      exact hrc
    have hdrop : dropCb (cloneCbF f w sa).2 (some sa) =
        { (cloneCbF f w sa).2 with
          rc := fset (cloneCbF f w sa).2.rc sa
            ((cloneCbF f w sa).2.rc sa - 1) } :=
      dropCb_rcOnly _ sa hrc1'
    have hcbs2 : (dropCb (cloneCbF f w sa).2 (some sa)).cbs =
        (cloneCbF f w sa).2.cbs := by rw [hdrop]
    have hobjs2 : (dropCb (cloneCbF f w sa).2 (some sa)).objs =
        (cloneCbF f w sa).2.objs := by rw [hdrop]
    have hptr2 : cbPtr (dropCb (cloneCbF f w sa).2 (some sa)) a₁ =
        some p₁ := by
      show cbPtrF (a₁ + 1) (dropCb (cloneCbF f w sa).2 (some sa)) a₁ =
        some p₁
      rw [cbPtrF_ext (cloneCbF f w sa).2 _
        (fun x => congrFun hcbs2 x) (a₁ + 1) a₁]
      exact hp₁
    have hm : mutateF f w ⟨some p, some sa⟩ =
        (false,
         ⟨cbPtr (dropCb (cloneCbF f w sa).2 (some sa)) a₁, some a₁⟩,
         cbPtr (dropCb (cloneCbF f w sa).2 (some sa)) a₁,
         dropCb (cloneCbF f w sa).2 (some sa)) := by
      simp only [mutateF]
      rw [if_neg hrc, hclp]
    refine ⟨by rw [hm], by rw [hm], by omega, by rw [hm], ?_, ?_⟩
    · rw [hm]
      show observe (dropCb (cloneCbF f w sa).2 (some sa))
        ⟨cbPtr (dropCb (cloneCbF f w sa).2 (some sa)) a₁, some a₁⟩ = some v
      simp only [observe]
      rw [hptr2, hobjs2]
      exact hv₁'
    · show observe w (⟨some p, some sa⟩ : Wrapper) = some v
      simp only [observe]
      exact hval

/-- Heap for the C1 witness: one object behind one indirect block whose
use count is 2 (shared). -/
def c1W : World :=
  { nextObj := 1
    objs := fset (fun _ => none) 0 (some 7)
    alive := 1
    nextCb := 1
    cbs := fset (fun _ => none) 0
      (some (CB.indirect 0 Copier.defaultC Deleter.defaultD))
    rc := fset (fun _ => 0) 0 2
    copyCount := 0
    deleteCount := 0 }

theorem c1W_WF : WF c1W := by
  refine ⟨?_, ?_, ?_⟩
  · intro x hx
    have hx' : 1 ≤ x := hx
    show fset (fun _ => none) 0 (some (7 : Int)) x = none
    rw [fset_other _ _ (by omega : x ≠ 0)]
  · intro x hx
    have hx' : 1 ≤ x := hx
    show fset (fun _ => none) 0
      (some (CB.indirect 0 Copier.defaultC Deleter.defaultD)) x = none
    rw [fset_other _ _ (by omega : x ≠ 0)]
  · intro a b hab
    by_cases h : a = 0
    · subst h
      rw [show c1W.cbs 0 = some (CB.indirect 0 Copier.defaultC
        Deleter.defaultD) from rfl] at hab
      injection hab with hab
      subst hab
      show c1W.objs 0 ≠ none
      simp [c1W]
    · rw [show c1W.cbs a = fset (fun _ => none) 0
        (some (CB.indirect 0 Copier.defaultC Deleter.defaultD)) a from
        rfl, fset_other _ _ h] at hab
      exact Option.noConfusion hab

/-- Witness for C1: a shared block (use count 2) is detached by `mutate`;
the new block is the clone, and the value is preserved. -/
theorem c1_mutate_contract_witness :
    c1W.rc 0 ≠ 1 ∧ (cloneCbF 2 c1W 0).1 = some 1 ∧
    (mutateF 2 c1W ⟨some 0, some 0⟩).2.1.cb = some 1 ∧
    observe (mutateF 2 c1W ⟨some 0, some 0⟩).2.2.2
      (mutateF 2 c1W ⟨some 0, some 0⟩).2.1 = some 7 :=
  ⟨by decide, rfl,
    ((c1_mutate_contract 2 c1W ⟨some 0, some 0⟩ 0 0 7 c1W_WF rfl rfl rfl
      rfl).2 (by decide) 1 rfl).2.1,
    ((c1_mutate_contract 2 c1W ⟨some 0, some 0⟩ 0 0 7 c1W_WF rfl rfl rfl
      rfl).2 (by decide) 1 rfl).2.2.2.2.1⟩

/-! ### C2: copies share until a write, then diverge -/

/-- C2: after `b` is copied from a non-empty wrapper `a`, both observe the
same logical value; a subsequent `mutate(a)` (followed by a write `n`
through the returned pointer) detaches `a` onto a fresh object, so the
value observed through `b` is unchanged while `a` observes `n`. -/
theorem c2_copy_independence (f : Nat) (w : World) (a : Wrapper)
    (p sa a₁ : Nat) (v n : Int) (hwf : WF w)
    (hp : a.ptr = some p) (hc : a.cb = some sa)
    (hinv : cbPtr w sa = some p) (hval : w.objs p = some v)
    (hrc : 1 ≤ w.rc sa)
    (hcl : (cloneCbF f (copyCtor w a).2 sa).1 = some a₁) :
    observe (copyCtor w a).2 (copyCtor w a).1 =
      observe (copyCtor w a).2 a ∧
    observe (copyCtor w a).2 (copyCtor w a).1 = some v ∧
    (mutateF f (copyCtor w a).2 a).1 = false ∧
    observe
      (writePtr (mutateF f (copyCtor w a).2 a).2.2.2
        (mutateF f (copyCtor w a).2 a).2.2.1 n)
      (copyCtor w a).1 = some v ∧
    observe
      (writePtr (mutateF f (copyCtor w a).2 a).2.2.2
        (mutateF f (copyCtor w a).2 a).2.2.1 n)
      (mutateF f (copyCtor w a).2 a).2.1 = some n := by
  have hsa_cbs : w.cbs sa ≠ none := cbPtrF_some_cbs sa w sa p hinv
  have hsa_lt : sa < w.nextCb := by
    by_contra hh
    exact hsa_cbs (hwf.cbBound sa (by omega))
  have hp_lt : p < w.nextObj := by
    by_contra hh
    rw [hwf.objBound p (by omega)] at hval
    exact Option.noConfusion hval
  obtain ⟨cp, ccb⟩ := a
  have hcp : cp = some p := hp
  have hccb : ccb = some sa := hc
  subst hcp
  subst hccb
  have hrcne : (copyCtor w ⟨some p, some sa⟩).2.rc sa ≠ 1 := by
    show fset w.rc sa (w.rc sa + 1) sa ≠ 1
    rw [fset_self]
    omega
  have hwf₁ : WF (copyCtor w ⟨some p, some sa⟩).2 :=
    WF_increfOpt w (some sa) hwf
  have hinv₁ : cbPtr (copyCtor w ⟨some p, some sa⟩).2 sa = some p := by
    show cbPtrF (sa + 1) (copyCtor w ⟨some p, some sa⟩).2 sa = some p
    rw [cbPtrF_ext w (copyCtor w ⟨some p, some sa⟩).2 (fun x => rfl)
      (sa + 1) sa]
    exact hinv
  have hval₁ : (copyCtor w ⟨some p, some sa⟩).2.objs p = some v := hval
  have hclp : cloneCbF f (copyCtor w ⟨some p, some sa⟩).2 sa =
      (some a₁, (cloneCbF f (copyCtor w ⟨some p, some sa⟩).2 sa).2) := by
    rw [← hcl]
  obtain ⟨hwf1, hle1, hni, hno, hfcbs, hfobjs, hfrc, hrc1, hchain,
    q, vv, p₁, hq, hvv, hp₁, hv₁, hb1, hb2⟩ :=
    cloneCbF_spec f (copyCtor w ⟨some p, some sa⟩).2 sa a₁
      (cloneCbF f (copyCtor w ⟨some p, some sa⟩).2 sa).2 hwf₁ hclp
  have hqp : q = p := by
    rw [hinv₁] at hq
    injection hq with hq
    exact hq.symm
  have hvvv : vv = v := by
    rw [hqp, hval₁] at hvv
    injection hvv with hvv
    exact hvv.symm
  have hb1' : w.nextObj ≤ p₁ := hb1
  have hpne : p ≠ p₁ := by omega
  have hv₁' : (cloneCbF f (copyCtor w ⟨some p, some sa⟩).2 sa).2.objs p₁ =
      some v := by
    rw [hv₁, hvvv]
  have hrc1' : (cloneCbF f (copyCtor w ⟨some p, some sa⟩).2 sa).2.rc sa
      ≠ 1 := by
    rw [hfrc sa (show sa < (copyCtor w ⟨some p, some sa⟩).2.nextCb from
      hsa_lt)]
    exact hrcne
  have hdrop : dropCb (cloneCbF f (copyCtor w ⟨some p, some sa⟩).2 sa).2
      (some sa) =
      { (cloneCbF f (copyCtor w ⟨some p, some sa⟩).2 sa).2 with
        rc := fset (cloneCbF f (copyCtor w ⟨some p, some sa⟩).2 sa).2.rc
          sa ((cloneCbF f (copyCtor w ⟨some p, some sa⟩).2 sa).2.rc sa
            - 1) } :=
    dropCb_rcOnly _ sa hrc1'
  have hcbs2 : (dropCb (cloneCbF f (copyCtor w ⟨some p, some sa⟩).2 sa).2
      (some sa)).cbs =
      (cloneCbF f (copyCtor w ⟨some p, some sa⟩).2 sa).2.cbs := by
    rw [hdrop]
  have hobjs2 : (dropCb (cloneCbF f (copyCtor w ⟨some p, some sa⟩).2 sa).2
      (some sa)).objs =
      (cloneCbF f (copyCtor w ⟨some p, some sa⟩).2 sa).2.objs := by
    rw [hdrop]
  have hptr2 : cbPtr (dropCb
      (cloneCbF f (copyCtor w ⟨some p, some sa⟩).2 sa).2 (some sa)) a₁ =
      some p₁ := by
    show cbPtrF (a₁ + 1) (dropCb
      (cloneCbF f (copyCtor w ⟨some p, some sa⟩).2 sa).2 (some sa)) a₁ =
      some p₁
    rw [cbPtrF_ext (cloneCbF f (copyCtor w ⟨some p, some sa⟩).2 sa).2 _
      (fun x => congrFun hcbs2 x) (a₁ + 1) a₁]
    exact hp₁
  have hm : mutateF f (copyCtor w ⟨some p, some sa⟩).2
      ⟨some p, some sa⟩ =
      (false,
       ⟨cbPtr (dropCb (cloneCbF f (copyCtor w ⟨some p, some sa⟩).2 sa).2
          (some sa)) a₁, some a₁⟩,
       cbPtr (dropCb (cloneCbF f (copyCtor w ⟨some p, some sa⟩).2 sa).2
          (some sa)) a₁,
       dropCb (cloneCbF f (copyCtor w ⟨some p, some sa⟩).2 sa).2
         (some sa)) := by
    simp only [mutateF]
    rw [if_neg hrcne, hclp]
  refine ⟨rfl, hval₁, by rw [hm], ?_, ?_⟩
  · rw [hm, hptr2]
    show fset (dropCb (cloneCbF f (copyCtor w ⟨some p, some sa⟩).2 sa).2
      (some sa)).objs p₁ (some n) p = some v
    rw [fset_other _ _ hpne]
    rw [congrFun hobjs2 p]
    rw [hfobjs p (by rw [hval₁]; simp)]
    exact hval₁
  · rw [hm, hptr2]
    show fset (dropCb (cloneCbF f (copyCtor w ⟨some p, some sa⟩).2 sa).2
      (some sa)).objs p₁ (some n) p₁ = some n
    exact fset_self _ _ _

/-- Witness for C2 on the shared one-block heap. -/
theorem c2_copy_independence_witness :
    (cloneCbF 2 (copyCtor c1W ⟨some 0, some 0⟩).2 0).1 = some 1 ∧
    observe
      (writePtr (mutateF 2 (copyCtor c1W ⟨some 0, some 0⟩).2
          ⟨some 0, some 0⟩).2.2.2
        (mutateF 2 (copyCtor c1W ⟨some 0, some 0⟩).2
          ⟨some 0, some 0⟩).2.2.1 99)
      (copyCtor c1W ⟨some 0, some 0⟩).1 = some 7 :=
  ⟨rfl,
    (c2_copy_independence 2 c1W ⟨some 0, some 0⟩ 0 0 1 7 99 c1W_WF rfl rfl
      rfl rfl (by decide) rfl).2.2.2.1⟩

/-! ### C3: the copier/deleter counter scenario -/

/-- The all-empty initial heap. -/
def w0 : World :=
  { nextObj := 0, objs := fun _ => none, alive := 0,
    nextCb := 0, cbs := fun _ => none, rc := fun _ => 0,
    copyCount := 0, deleteCount := 0 }

/-- `new DerivedType()` of the copier/deleter test. -/
def c3obj : Nat × World := allocObj w0 0

/-- `copy_on_write<DerivedType>(new DerivedType(), counting copier,
counting deleter)`. -/
def c3cp : Wrapper × World :=
  fromPtr c3obj.2 (some c3obj.1) Copier.counting Deleter.counting

/-- `auto cp2 = cp;`. -/
def c3cp2 : Wrapper × World := copyCtor c3cp.2 c3cp.1

/-- `cp2` going out of scope. -/
def c3end : World := destroy c3cp2.2 c3cp2.1

/-- C3: the claim (and the repository's own test) expects the copy counter
to be 1 after one copy and the delete counter to be 1 after the copy is
destroyed; the code's copy constructor shares the control block instead of
cloning, so the copy counter stays 0, and destroying the copy merely
decrements the shared use count, so the delete counter stays 0 and the
original object stays alive. -/
theorem c3_counter_scenario :
    c3cp2.2.copyCount = 0 ∧ c3end.deleteCount = 0 ∧
    c3cp2.2.copyCount ≠ 1 ∧ c3end.deleteCount ≠ 1 ∧
    c3end.alive = 1 ∧ c3end.rc 0 = 1 := by decide

/-! ### C9: dereferencing observers -/

/-- C9 counterexample: the claim says `value()` on an empty wrapper is
asserted; `value()` has no assertion and dereferences the null access
pointer unchecked. -/
theorem c9_value_not_asserted :
    valueAccess emptyWrapper ≠ Access.assertFail ∧
    valueAccess emptyWrapper = Access.nullDeref := by decide

/-- C9 amended: on a non-empty wrapper all three observers return a
reference to the held value; on an empty wrapper `operator*` and
`operator->` trip their assertion, while `value()` performs no check and
dereferences the null pointer. -/
theorem c9_deref_amended (c : Wrapper) (p : Nat) (h : c.ptr = some p) :
    opStar c = Access.ok p ∧ opArrow c = Access.ok p ∧
    valueAccess c = Access.ok p ∧
    (∀ d : Wrapper, d.ptr = none →
      opStar d = Access.assertFail ∧ opArrow d = Access.assertFail ∧
      valueAccess d = Access.nullDeref) := by
  refine ⟨?_, ?_, ?_, ?_⟩
  · simp [opStar, h]
  · simp [opArrow, h]
  · simp [valueAccess, h]
  · intro d hd
    refine ⟨?_, ?_, ?_⟩ <;> simp [opStar, opArrow, valueAccess, hd]

/-- Witness for the amended C9 at a concrete non-empty wrapper. -/
theorem c9_deref_amended_witness :
    (Wrapper.mk (some 3) (some 0)).ptr = some 3 ∧
    opStar (Wrapper.mk (some 3) (some 0)) = Access.ok 3 :=
  ⟨rfl, (c9_deref_amended (Wrapper.mk (some 3) (some 0)) 3 rfl).1⟩

/-! ### C10: mutate on an empty wrapper -/

/-- C10: `mutate` on an empty wrapper returns a null pointer, performs no
clone (the heap, and in particular the copy counter, is untouched), and
leaves the wrapper unchanged. -/
theorem c10_mutate_empty (f : Nat) (w : World) (c : Wrapper)
    (h : c.ptr = none) :
    mutateF f w c = (false, c, none, w) ∧
    (mutateF f w c).2.2.2.copyCount = w.copyCount ∧
    (mutateF f w c).2.1 = c ∧ (mutateF f w c).2.2.1 = none := by
  simp [mutateF, h]

/-- Witness for C10 at the empty wrapper in the empty heap. -/
theorem c10_mutate_empty_witness :
    emptyWrapper.ptr = none ∧
    mutateF 1 w0 emptyWrapper = (false, emptyWrapper, none, w0) :=
  ⟨rfl, (c10_mutate_empty 1 w0 emptyWrapper rfl).1⟩

/-! ### C7: move construction and move assignment -/

/-- A non-empty wrapper built by the value constructor, for the C7
counterexample. -/
def c7w : Wrapper × World := valueCtor w0 7

/-- C7 counterexample: self-move-assignment of a non-empty wrapper hits
the `&p == this` guard and leaves the wrapper unchanged, hence not empty,
contradicting the claim read at destination = source. -/
theorem c7_self_move_counterexample :
    wBool c7w.1 = true ∧ (moveAssignSelf c7w.2 c7w.1).2.ptr ≠ none := by
  decide

/-- C7 amended: move construction, and move assignment into a distinct
destination, leave the source empty and give the destination exactly the
source's former access pointer, never invoking the copy policy;
self-move-assignment is a no-op. -/
theorem c7_move_amended (w : World) (dst src c : Wrapper) :
    (moveCtor w src).2.2 = emptyWrapper ∧
    (moveCtor w src).2.1.ptr = src.ptr ∧
    (moveCtor w src).1 = w ∧
    (moveAssign w dst src).2.2 = emptyWrapper ∧
    (moveAssign w dst src).2.1.ptr = src.ptr ∧
    (moveAssign w dst src).1.copyCount = w.copyCount ∧
    moveAssignSelf w c = (w, c) := by
  refine ⟨rfl, rfl, rfl, rfl, rfl, ?_, rfl⟩
  simp only [moveAssign]
  cases hd : dst.cb with
  | none => rfl
  | some b => exact dropCbF_copyCount _ _ _

/-! ### C6: converting construction from a related wrapper -/

/-- C6: converting copy/move construction from a non-empty `Wrapper<U>`
wraps the source's control block in a fresh delegating block without
running any copy policy (copy counter and live-object count untouched);
the result observes the source's logical value, and the move form leaves
the source empty. -/
theorem c6_converting_construction (w : World) (src : Wrapper) (p sa : Nat)
    (hp : src.ptr = some p) (hc : src.cb = some sa) :
    (convCopyCtor w src).1.ptr = some p ∧
    (convCopyCtor w src).1.cb = some w.nextCb ∧
    (convCopyCtor w src).2.cbs w.nextCb = some (CB.delegating (some sa)) ∧
    (convCopyCtor w src).2.copyCount = w.copyCount ∧
    (convCopyCtor w src).2.alive = w.alive ∧
    observe (convCopyCtor w src).2 (convCopyCtor w src).1 = observe w src ∧
    (convMoveCtor w src).2.1.ptr = some p ∧
    (convMoveCtor w src).2.1.cb = some w.nextCb ∧
    (convMoveCtor w src).1.cbs w.nextCb = some (CB.delegating (some sa)) ∧
    (convMoveCtor w src).1.copyCount = w.copyCount ∧
    (convMoveCtor w src).1.alive = w.alive ∧
    observe (convMoveCtor w src).1 (convMoveCtor w src).2.1 = observe w src ∧
    (convMoveCtor w src).2.2 = emptyWrapper := by
  refine ⟨?_, ?_, ?_, ?_, ?_, ?_, ?_, ?_, ?_, ?_, ?_, ?_, ?_⟩ <;>
    simp [convCopyCtor, convMoveCtor, increfOpt, allocCb, observe, hp, hc]

/-- A heap with one held object wrapped by one indirect block, and the
wrapper over it, for concrete witnesses. -/
def oneW : Wrapper × World := valueCtor w0 7

/-- Witness for C6 at a concrete non-empty source. -/
theorem c6_converting_construction_witness :
    oneW.1.ptr = some 0 ∧ oneW.1.cb = some 0 ∧
    (convCopyCtor oneW.2 oneW.1).1.cb = some 1 :=
  ⟨rfl, rfl, by
    have h := (c6_converting_construction oneW.2 oneW.1 0 0 rfl rfl).2.1
    exact h⟩

/-! ### C4: strong exception safety of copy assignment -/

/-- C4: if the copy policy raises during `dst = src` (the clone step
fails), the call returns with the heap exactly as before: both wrappers
keep their access pointer, control block, and observed value, and the
live-object count is unchanged. -/
theorem c4_assign_exception_safety (f : Nat) (w : World) (dst src : Wrapper)
    (h : (copyAssign f w dst src).1 = true) :
    (copyAssign f w dst src).2.1 = dst ∧
    (copyAssign f w dst src).2.2 = w ∧
    observe (copyAssign f w dst src).2.2 (copyAssign f w dst src).2.1 =
      observe w dst ∧
    observe (copyAssign f w dst src).2.2 src = observe w src ∧
    (copyAssign f w dst src).2.2.alive = w.alive := by
  cases hsp : src.ptr with
  | none => simp [copyAssign, hsp] at h
  | some q =>
    cases hsc : src.cb with
    | none => simp [copyAssign, hsp, hsc]
    | some a =>
      cases hcl : cloneCbF f w a with
      | mk o w₁ =>
        cases o with
        | some a₁ => simp [copyAssign, hsp, hsc, hcl] at h
        | none =>
          have hw : w₁ = w := by
            have h₂ := cloneCbF_err f w a (by rw [hcl])
            rw [hcl] at h₂
            exact h₂
          subst hw
          simp [copyAssign, hsp, hsc, hcl]

/-- Heap for the C4 witness: a destination object `5` behind block 0 and a
source object `7` behind block 1 whose copier is `throwing_copier`. -/
def c4W : World :=
  { nextObj := 2
    objs := fset (fset (fun _ => none) 0 (some 5)) 1 (some 7)
    alive := 2
    nextCb := 2
    cbs := fset (fset (fun _ => none) 0
             (some (CB.indirect 0 Copier.defaultC Deleter.defaultD))) 1
             (some (CB.indirect 1 Copier.throwing Deleter.defaultD))
    rc := fset (fset (fun _ => 0) 0 1) 1 1
    copyCount := 0
    deleteCount := 0 }

/-- Destination wrapper of the C4 witness. -/
def c4dst : Wrapper := ⟨some 0, some 0⟩

/-- Source wrapper of the C4 witness. -/
def c4src : Wrapper := ⟨some 1, some 1⟩

/-- Witness for C4: the throwing copier makes the assignment raise, and
the heap afterwards is the heap before. -/
theorem c4_assign_exception_safety_witness :
    (copyAssign 2 c4W c4dst c4src).1 = true ∧
    (copyAssign 2 c4W c4dst c4src).2.1 = c4dst ∧
    (copyAssign 2 c4W c4dst c4src).2.2 = c4W :=
  ⟨rfl, (c4_assign_exception_safety 2 c4W c4dst c4src rfl).1,
    (c4_assign_exception_safety 2 c4W c4dst c4src rfl).2.1⟩

/-! ### C8: same-type copy assignment -/

/-- C8: for every destination wrapper, self-assignment is a no-op;
assigning from an empty source empties the destination, and the only heap
effect is releasing the destination's block reference — nothing when the
destination was empty, a use-count decrement when the reference is
shared, and destruction of the block when it was the last reference
(an indirect or direct block frees its held object; a delegating block
releases its delegate, cascading to the delegate's held object when that
reference was also the last); assigning from a non-empty source clones
the source's block and installs the clone's pointer and block only if the
clone succeeded, while a failed clone leaves the destination and the heap
exactly as they were. -/
theorem c8_copy_assignment (f : Nat) (w : World) (dst src esrc : Wrapper)
    (p sa : Nat)
    (hesrc : esrc.ptr = none)
    (hp : src.ptr = some p) (hc : src.cb = some sa) :
    copyAssignSelf w dst = (w, dst) ∧
    (copyAssign f w dst esrc).1 = false ∧
    (copyAssign f w dst esrc).2.1 = emptyWrapper ∧
    (copyAssign f w dst esrc).2.2 = dropCb w dst.cb ∧
    (dst.cb = none → (copyAssign f w dst esrc).2.2 = w) ∧
    (∀ b, dst.cb = some b → 2 ≤ w.rc b →
      (copyAssign f w dst esrc).2.2 =
        { w with rc := fset w.rc b (w.rc b - 1) }) ∧
    (∀ b obj cop del, dst.cb = some b → w.rc b = 1 →
      w.cbs b = some (CB.indirect obj cop del) →
      (copyAssign f w dst esrc).2.2.objs obj = none ∧
      (copyAssign f w dst esrc).2.2.alive = w.alive - 1 ∧
      (copyAssign f w dst esrc).2.2.cbs b = none) ∧
    (∀ b obj, dst.cb = some b → w.rc b = 1 →
      w.cbs b = some (CB.direct obj) →
      (copyAssign f w dst esrc).2.2.objs obj = none ∧
      (copyAssign f w dst esrc).2.2.alive = w.alive - 1 ∧
      (copyAssign f w dst esrc).2.2.cbs b = none) ∧
    (∀ b d obj cop del, dst.cb = some b → d < b → w.rc b = 1 →
      w.cbs b = some (CB.delegating (some d)) →
      w.cbs d = some (CB.indirect obj cop del) →
      (w.rc d = 1 →
        (copyAssign f w dst esrc).2.2.objs obj = none ∧
        (copyAssign f w dst esrc).2.2.alive = w.alive - 1 ∧
        (copyAssign f w dst esrc).2.2.cbs b = none ∧
        (copyAssign f w dst esrc).2.2.cbs d = none) ∧
      (2 ≤ w.rc d →
        (copyAssign f w dst esrc).2.2.objs obj = w.objs obj ∧
        (copyAssign f w dst esrc).2.2.alive = w.alive ∧
        (copyAssign f w dst esrc).2.2.cbs b = none ∧
        (copyAssign f w dst esrc).2.2.cbs d = w.cbs d)) ∧
    (∀ a₁, (cloneCbF f w sa).1 = some a₁ →
      (copyAssign f w dst src).1 = false ∧
      (copyAssign f w dst src).2.1.cb = some a₁ ∧
      (copyAssign f w dst src).2.1.ptr = cbPtr (cloneCbF f w sa).2 a₁) ∧
    ((cloneCbF f w sa).1 = none →
      (copyAssign f w dst src).1 = true ∧
      (copyAssign f w dst src).2.1 = dst ∧
      (copyAssign f w dst src).2.2 = w) := by
  obtain ⟨ep, ecb⟩ := esrc
  have hep : ep = none := hesrc
  subst hep
  obtain ⟨sp, scb⟩ := src
  have hsp : sp = some p := hp
  have hscb : scb = some sa := hc
  subst hsp
  subst hscb
  have hm_e : copyAssign f w dst ⟨none, ecb⟩ =
      (false, emptyWrapper, dropCb w dst.cb) := rfl
  refine ⟨rfl, by rw [hm_e], by rw [hm_e], by rw [hm_e],
    ?_, ?_, ?_, ?_, ?_, ?_, ?_⟩
  · intro h0
    rw [hm_e, h0]
    rfl
  · intro b hb h2
    rw [hm_e, hb]
    exact dropCb_rcOnly w b (by omega)
  · intro b obj cop del hb h1 hcbs
    have hdw : dropCb w (some b) = runDeleter del (clearCb w b) obj := by
      show dropCbF (b + 1) w (some b) = _
      simp only [dropCbF]
      rw [if_pos h1, hcbs]
    rw [hm_e, hb, hdw]
    refine ⟨?_, ?_, ?_⟩
    · cases del <;> simp [runDeleter, freeObj, clearCb]
    · cases del <;> rfl
    · cases del <;> simp [runDeleter, freeObj, clearCb]
  · intro b obj hb h1 hcbs
    have hdw : dropCb w (some b) = freeObj (clearCb w b) obj := by
      show dropCbF (b + 1) w (some b) = _
      simp only [dropCbF]
      rw [if_pos h1, hcbs]
    rw [hm_e, hb, hdw]
    refine ⟨?_, ?_, ?_⟩
    · simp [freeObj, clearCb]
    · rfl
    · simp [freeObj, clearCb]
  · intro b d obj cop del hb hdb h1 hcbs hcbsd
    have hstep : dropCb w (some b) = dropCbF b (clearCb w b) (some d) := by
      show dropCbF (b + 1) w (some b) = _
      simp only [dropCbF]
      rw [if_pos h1, hcbs]
    have hrcd : (clearCb w b).rc d = w.rc d := by
      show fset w.rc b 0 d = w.rc d
      exact fset_other _ _ (by omega)
    have hcbsd' : (clearCb w b).cbs d = some (CB.indirect obj cop del) := by
      show fset w.cbs b none d = _
      rw [fset_other _ _ (by omega : d ≠ b)]
      exact hcbsd
    obtain ⟨b', rfl⟩ : ∃ b', b = b' + 1 := ⟨b - 1, by omega⟩
    constructor
    · intro hd1
      have hstep2 : dropCbF (b' + 1) (clearCb w (b' + 1)) (some d) =
          runDeleter del (clearCb (clearCb w (b' + 1)) d) obj := by
        simp only [dropCbF]
        rw [hrcd, if_pos hd1, hcbsd']
      rw [hm_e, hb, hstep, hstep2]
      refine ⟨?_, ?_, ?_, ?_⟩
      · cases del <;> simp [runDeleter, freeObj, clearCb]
      · cases del <;> rfl
      · cases del <;>
          simp [runDeleter, freeObj, clearCb,
            fset_other _ _ (by omega : b' + 1 ≠ d)]
      · cases del <;> simp [runDeleter, freeObj, clearCb]
    · intro hd2
      have hstep2 : dropCbF (b' + 1) (clearCb w (b' + 1)) (some d) =
          { clearCb w (b' + 1) with
            rc := fset (clearCb w (b' + 1)).rc d
              ((clearCb w (b' + 1)).rc d - 1) } :=
        dropCbF_rcOnly b' (clearCb w (b' + 1)) d (by omega)
      rw [hm_e, hb, hstep, hstep2]
      refine ⟨rfl, rfl, ?_, ?_⟩
      · show fset w.cbs (b' + 1) none (b' + 1) = none
        exact fset_self _ _ _
      · show fset w.cbs (b' + 1) none d = w.cbs d
        exact fset_other _ _ (by omega)
  · intro a₁ hcl
    have hclp : cloneCbF f w sa = (some a₁, (cloneCbF f w sa).2) := by
      rw [← hcl]
    have hm_s : copyAssign f w dst ⟨some p, some sa⟩ =
        (false, ⟨cbPtr (cloneCbF f w sa).2 a₁, some a₁⟩,
         dropCb (cloneCbF f w sa).2 dst.cb) := by
      simp only [copyAssign]
      rw [hclp]
    exact ⟨by rw [hm_s], by rw [hm_s], by rw [hm_s]⟩
  · intro hcl
    have herr : (cloneCbF f w sa).2 = w := cloneCbF_err f w sa hcl
    have hclp : cloneCbF f w sa = (none, w) := by
      rw [Prod.ext_iff]
      exact ⟨hcl, herr⟩
    have hm_f : copyAssign f w dst ⟨some p, some sa⟩ = (true, dst, w) := by
      simp only [copyAssign]
      rw [hclp]
    exact ⟨by rw [hm_f], by rw [hm_f], by rw [hm_f]⟩

/-- Witness for C8 on the two-block heap: the empty-source assignment
empties the destination and (its block reference being the last one)
destroys its held object, and the failing clone from the throwing-copier
source leaves the heap unchanged. -/
theorem c8_copy_assignment_witness :
    (copyAssign 2 c4W c4dst ⟨none, none⟩).2.1 = emptyWrapper ∧
    (copyAssign 2 c4W c4dst ⟨none, none⟩).2.2.alive = c4W.alive - 1 ∧
    (copyAssign 2 c4W c4dst c4src).2.2 = c4W := by
  have h := c8_copy_assignment 2 c4W c4dst c4src ⟨none, none⟩ 1 1 rfl
    (by rfl) (by rfl)
  obtain ⟨-, -, h3, -, -, -, h7, -, -, -, h11⟩ := h
  exact ⟨h3,
    (h7 0 0 Copier.defaultC Deleter.defaultD (by rfl) (by rfl)
      (by rfl)).2.1,
    (h11 (by rfl)).2.2⟩



/-! ### C5 helper lemmas: invariant preservation for the assignment
family -/

theorem moveAssign_inv (W : World) (dst : Wrapper) (p sa : Nat)
    (hinv2 : cbPtr W sa = some p)
    (hds : DropSafe W dst.cb sa) :
    Inv (moveAssign W dst ⟨some p, some sa⟩).1
      (moveAssign W dst ⟨some p, some sa⟩).2.1 := by
  constructor
  · constructor
    · intro hh
      exact Option.noConfusion (show (some p : Option Nat) = none from hh)
    · intro hh
      exact Option.noConfusion (show (some sa : Option Nat) = none from hh)
  · intro a ha
    have haa : a = sa := by
      injection ha with ha
      exact ha.symm
    rw [haa]
    show cbPtr (dropCb W dst.cb) sa = some p
    cases hdc : dst.cb with
    | none => exact hinv2
    | some b =>
      rcases hds b hdc with h2 | hdisj
      · exact drop_preserve_cbPtr W b sa p (Or.inl h2) hinv2
      · exact drop_preserve_cbPtr W b sa p
          (Or.inr (fun x hx hx' => hdisj (b + 1) x hx (sa + 1) hx')) hinv2

theorem convMoveAssign_inv (W : World) (dst : Wrapper) (p sa : Nat)
    (hwf : WF W) (hinv2 : cbPtr W sa = some p)
    (hdstE : dst.cb = none ∨
      ∃ b pd, dst.cb = some b ∧ cbPtr W b = some pd)
    (hds : DropSafe W dst.cb sa) :
    Inv (convMoveAssign W dst ⟨some p, some sa⟩).1
      (convMoveAssign W dst ⟨some p, some sa⟩).2.1 := by
  have hdeleg := wfDeleg W hwf
  have hsa_cbs : W.cbs sa ≠ none := cbPtrF_some_cbs sa W sa p hinv2
  have hsa_lt : sa < W.nextCb := by
    by_contra hh
    exact hsa_cbs (hwf.cbBound sa (by omega))
  have hkeep : cbPtr (allocCb W (CB.delegating (some sa))).2 W.nextCb =
      some p := Inv_newDelegating W p sa hwf hinv2
  have hext1 : ∀ x, x ≠ W.nextCb →
      (allocCb W (CB.delegating (some sa))).2.cbs x = W.cbs x := by
    intro x hx
    show fset W.cbs W.nextCb _ x = W.cbs x
    exact fset_other _ _ hx
  constructor
  · constructor
    · intro hh
      exact Option.noConfusion (show (some p : Option Nat) = none from hh)
    · intro hh
      exact Option.noConfusion
        (show (some W.nextCb : Option Nat) = none from hh)
  · intro a ha
    have haa : a = W.nextCb := by
      injection ha with ha
      exact ha.symm
    rw [haa]
    show cbPtr (dropCb (allocCb W (CB.delegating (some sa))).2 dst.cb)
      W.nextCb = some p
    rcases hdstE with hdc | ⟨b, pd, hdc, hbp⟩
    · rw [hdc]
      exact hkeep
    · have hb_cbs : W.cbs b ≠ none := cbPtrF_some_cbs b W b pd hbp
      have hb_lt : b < W.nextCb := by
        by_contra hh
        exact hb_cbs (hwf.cbBound b (by omega))
      rw [hdc]
      rcases hds b hdc with h2 | hdisj
      · refine drop_preserve_cbPtr _ b W.nextCb p (Or.inl ?_) hkeep
        show 2 ≤ fset W.rc W.nextCb 1 b
        rw [fset_other _ _ (by omega : b ≠ W.nextCb)]
        exact h2
      · refine drop_preserve_cbPtr _ b W.nextCb p (Or.inr ?_) hkeep
        intro x hx hx'
        have hbW : chainF (b + 1) (allocCb W (CB.delegating (some sa))).2
            (some b) = chainF (b + 1) W (some b) :=
          chainF_ext_above W _ W.nextCb hext1 hdeleg (b + 1) (some b)
            (by intro b' hb'; injection hb' with hb'; omega)
        rw [hbW] at hx
        have hxb : x ≤ b := chainF_le W hdeleg (b + 1) b x hx
        rw [chainF_of_delegating _ W.nextCb W.nextCb (some sa)
          (fset_self _ _ _)] at hx'
        rw [List.mem_cons] at hx'
        rcases hx' with hx' | hx'
        · omega
        · have hsaW : chainF W.nextCb
              (allocCb W (CB.delegating (some sa))).2 (some sa) =
              chainF W.nextCb W (some sa) :=
            chainF_ext_above W _ W.nextCb hext1 hdeleg W.nextCb (some sa)
              (by intro b' hb'; injection hb' with hb'; omega)
          rw [hsaW] at hx'
          exact hdisj (b + 1) x hx W.nextCb hx'

theorem copyAssign_inv (f : Nat) (W : World) (dst : Wrapper)
    (p sa a₁ : Nat) (hwf : WF W) (hinv2 : cbPtr W sa = some p)
    (hdstE : dst.cb = none ∨
      ∃ b pd, dst.cb = some b ∧ cbPtr W b = some pd)
    (hcl : (cloneCbF f W sa).1 = some a₁) :
    Inv (copyAssign f W dst ⟨some p, some sa⟩).2.2
      (copyAssign f W dst ⟨some p, some sa⟩).2.1 := by
  have hdeleg := wfDeleg W hwf
  have hclp : cloneCbF f W sa = (some a₁, (cloneCbF f W sa).2) := by
    rw [← hcl]
  obtain ⟨hwf1, hle1, hni, hno, hfcbs, hfobjs, hfrc, hrc1, hchain,
    q, vv, p₁, hq, hvv, hp₁, hv₁, hb1, hb2⟩ :=
    cloneCbF_spec f W sa a₁ (cloneCbF f W sa).2 hwf hclp
  have hm : copyAssign f W dst ⟨some p, some sa⟩ =
      (false, ⟨cbPtr (cloneCbF f W sa).2 a₁, some a₁⟩,
       dropCb (cloneCbF f W sa).2 dst.cb) := by
    simp only [copyAssign]
    rw [hclp]
  rw [hm]
  constructor
  · constructor
    · intro hh
      rw [show (⟨cbPtr (cloneCbF f W sa).2 a₁, some a₁⟩ : Wrapper).ptr =
        cbPtr (cloneCbF f W sa).2 a₁ from rfl, hp₁] at hh
      exact Option.noConfusion hh
    · intro hh
      exact Option.noConfusion
        (show (some a₁ : Option Nat) = none from hh)
  · intro a ha
    have haa : a = a₁ := by
      injection ha with ha
      exact ha.symm
    rw [haa]
    show cbPtr (dropCb (cloneCbF f W sa).2 dst.cb) a₁ =
      cbPtr (cloneCbF f W sa).2 a₁
    rw [hp₁]
    rcases hdstE with hdc | ⟨b, pd, hdc, hbp⟩
    · rw [hdc]
      exact hp₁
    · have hb_cbs : W.cbs b ≠ none := cbPtrF_some_cbs b W b pd hbp
      have hb_lt : b < W.nextCb := by
        by_contra hh
        exact hb_cbs (hwf.cbBound b (by omega))
      rw [hdc]
      refine drop_preserve_cbPtr _ b a₁ p₁ (Or.inr ?_) hp₁
      intro x hx hx'
      have hbW : chainF (b + 1) (cloneCbF f W sa).2 (some b) =
          chainF (b + 1) W (some b) :=
        chainF_ext_below W _ W.nextCb hfcbs hdeleg (b + 1) (some b)
          (by intro b' hb'; injection hb' with hb'; omega)
      rw [hbW] at hx
      have hxb : x ≤ b := chainF_le W hdeleg (b + 1) b x hx
      have hxf : W.nextCb ≤ x := hchain x hx'
      omega

theorem mutate_inv (f : Nat) (W : World) (p sa : Nat) (hwf : WF W)
    (hinv2 : cbPtr W sa = some p) :
    (W.rc sa = 1 →
      Inv (mutateF f W ⟨some p, some sa⟩).2.2.2
        (mutateF f W ⟨some p, some sa⟩).2.1) ∧
    (W.rc sa ≠ 1 → ∀ a₁, (cloneCbF f W sa).1 = some a₁ →
      Inv (mutateF f W ⟨some p, some sa⟩).2.2.2
        (mutateF f W ⟨some p, some sa⟩).2.1) := by
  have hsa_cbs : W.cbs sa ≠ none := cbPtrF_some_cbs sa W sa p hinv2
  have hsa_lt : sa < W.nextCb := by
    by_contra hh
    exact hsa_cbs (hwf.cbBound sa (by omega))
  constructor
  · intro hrc
    have hm : mutateF f W ⟨some p, some sa⟩ =
        (false, ⟨some p, some sa⟩, some p, W) := by
      simp [mutateF, hrc]
    rw [hm]
    constructor
    · constructor
      · intro hh
        exact Option.noConfusion
          (show (some p : Option Nat) = none from hh)
      · intro hh
        exact Option.noConfusion
          (show (some sa : Option Nat) = none from hh)
    · intro a ha
      have haa : a = sa := by
        injection ha with ha
        exact ha.symm
      rw [haa]
      exact hinv2
  · intro hrc a₁ hcl
    have hclp : cloneCbF f W sa = (some a₁, (cloneCbF f W sa).2) := by
      rw [← hcl]
    obtain ⟨hwf1, hle1, hni, hno, hfcbs, hfobjs, hfrc, hrc1, hchain,
      q, vv, p₁, hq, hvv, hp₁, hv₁, hb1, hb2⟩ :=
      cloneCbF_spec f W sa a₁ (cloneCbF f W sa).2 hwf hclp
    have hrc1' : (cloneCbF f W sa).2.rc sa ≠ 1 := by
      rw [hfrc sa hsa_lt]
      exact hrc
    have hdrop : dropCb (cloneCbF f W sa).2 (some sa) =
        { (cloneCbF f W sa).2 with
          rc := fset (cloneCbF f W sa).2.rc sa
            ((cloneCbF f W sa).2.rc sa - 1) } :=
      dropCb_rcOnly _ sa hrc1'
    have hcbs2 : (dropCb (cloneCbF f W sa).2 (some sa)).cbs =
        (cloneCbF f W sa).2.cbs := by
      rw [hdrop]
    have hptr2 : cbPtr (dropCb (cloneCbF f W sa).2 (some sa)) a₁ =
        some p₁ := by
      show cbPtrF (a₁ + 1) (dropCb (cloneCbF f W sa).2 (some sa)) a₁ =
        some p₁
      rw [cbPtrF_ext (cloneCbF f W sa).2 _
        (fun x => congrFun hcbs2 x) (a₁ + 1) a₁]
      exact hp₁
    have hm : mutateF f W ⟨some p, some sa⟩ =
        (false,
         ⟨cbPtr (dropCb (cloneCbF f W sa).2 (some sa)) a₁, some a₁⟩,
         cbPtr (dropCb (cloneCbF f W sa).2 (some sa)) a₁,
         dropCb (cloneCbF f W sa).2 (some sa)) := by
      simp only [mutateF]
      rw [if_neg hrc, hclp]
    rw [hm]
    constructor
    · constructor
      · intro hh
        rw [show (⟨cbPtr (dropCb (cloneCbF f W sa).2 (some sa)) a₁,
          some a₁⟩ : Wrapper).ptr =
          cbPtr (dropCb (cloneCbF f W sa).2 (some sa)) a₁ from rfl,
          hptr2] at hh
        exact Option.noConfusion hh
      · intro hh
        exact Option.noConfusion
          (show (some a₁ : Option Nat) = none from hh)
    · intro a ha
      have haa : a = a₁ := by
        injection ha with ha
        exact ha.symm
      rw [haa]

/-! ### C5: the wrapper invariant -/

/-- C5 counterexample: converting copy construction from an empty related
wrapper produces a wrapper whose access pointer is null while its control
block is a non-null delegating block (over a null delegate), so the
claimed invariant `access == null iff holder == null` fails. -/
theorem c5_inv_counterexample :
    (convCopyCtor w0 emptyWrapper).1.ptr = none ∧
    (convCopyCtor w0 emptyWrapper).1.cb ≠ none ∧
    ¬ ((convCopyCtor w0 emptyWrapper).1.ptr = none ↔
       (convCopyCtor w0 emptyWrapper).1.cb = none) := by
  refine ⟨rfl, ?_, ?_⟩
  · intro hh
    exact Option.noConfusion (show (some 0 : Option Nat) = none from hh)
  · intro hh
    exact Option.noConfusion
      (show (some 0 : Option Nat) = none from hh.mp rfl)

/-- C5 amended: after every public operation the produced wrappers
satisfy `ptr_ = null iff cb_ = null` and, when non-null, `ptr_` equals the
control block's `ptr()` — except for converting copy/move construction
and converting move assignment from an empty related wrapper, which
produce a null access pointer together with a non-null delegating block
over a null delegate.  Destructive assignments are covered under the
stated drop-safety side condition (the destination's released reference
is shared, or its chain is disjoint from the source's chain), which holds
in every reference-count-coherent heap. -/
theorem c5_inv_amended (f : Nat) (w : World) (src dst e : Wrapper)
    (p sa : Nat)
    (hwf : WF w)
    (hp : src.ptr = some p) (hc : src.cb = some sa)
    (hsrc : Inv w src) (hdst : Inv w dst)
    (he : e.ptr = none) (hec : e.cb = none)
    (hds : DropSafe w dst.cb sa) :
    Inv w emptyWrapper ∧
    (∀ cop del, Inv (fromPtr w none cop del).2 (fromPtr w none cop del).1) ∧
    (∀ q cop del, Inv (fromPtr w (some q) cop del).2
      (fromPtr w (some q) cop del).1) ∧
    (∀ u, Inv (valueCtor w u).2 (valueCtor w u).1) ∧
    (∀ u, Inv (makeCow w u).2 (makeCow w u).1) ∧
    Inv (copyCtor w dst).2 (copyCtor w dst).1 ∧
    Inv (moveCtor w dst).1 (moveCtor w dst).2.1 ∧
    Inv (moveCtor w dst).1 (moveCtor w dst).2.2 ∧
    Inv (convCopyCtor w src).2 (convCopyCtor w src).1 ∧
    Inv (convMoveCtor w src).1 (convMoveCtor w src).2.1 ∧
    Inv (convMoveCtor w src).1 (convMoveCtor w src).2.2 ∧
    (convCopyCtor w e).1.ptr = none ∧
    (convCopyCtor w e).1.cb = some w.nextCb ∧
    (convCopyCtor w e).2.cbs w.nextCb = some (CB.delegating none) ∧
    ((convMoveCtor w e).2.1.ptr = none ∧
      (convMoveCtor w e).2.1.cb = some w.nextCb) ∧
    ((convMoveAssign w dst e).2.1.ptr = none ∧
      (convMoveAssign w dst e).2.1.cb = some w.nextCb) ∧
    Inv (copyAssignSelf w dst).1 (copyAssignSelf w dst).2 ∧
    Inv (copyAssign f w dst e).2.2 (copyAssign f w dst e).2.1 ∧
    (∀ a₁, (cloneCbF f w sa).1 = some a₁ →
      Inv (copyAssign f w dst src).2.2 (copyAssign f w dst src).2.1) ∧
    Inv (moveAssign w dst src).1 (moveAssign w dst src).2.1 ∧
    Inv (moveAssign w dst src).1 (moveAssign w dst src).2.2 ∧
    Inv (moveAssignSelf w dst).1 (moveAssignSelf w dst).2 ∧
    Inv (convMoveAssign w dst src).1 (convMoveAssign w dst src).2.1 ∧
    Inv (convMoveAssign w dst src).1 (convMoveAssign w dst src).2.2 ∧
    Inv (convCopyAssign w dst src).1 (convCopyAssign w dst src).2 ∧
    (∀ u, Inv (valueAssign w dst u).1 (valueAssign w dst u).2) ∧
    Inv w (swapW dst src).1 ∧
    Inv w (swapW dst src).2 ∧
    (w.rc sa = 1 →
      Inv (mutateF f w src).2.2.2 (mutateF f w src).2.1) ∧
    (w.rc sa ≠ 1 → ∀ a₁, (cloneCbF f w sa).1 = some a₁ →
      Inv (mutateF f w src).2.2.2 (mutateF f w src).2.1) := by
  have hdeleg := wfDeleg w hwf
  obtain ⟨sp, scb⟩ := src
  have hsp : sp = some p := hp
  have hscb : scb = some sa := hc
  subst hsp
  subst hscb
  obtain ⟨ep, ecb⟩ := e
  have hep : ep = none := he
  have hecb : ecb = none := hec
  subst hep
  subst hecb
  have hinv2 : cbPtr w sa = some p := hsrc.2 sa rfl
  have hdstE : dst.cb = none ∨
      ∃ b pd, dst.cb = some b ∧ cbPtr w b = some pd := by
    cases hdc : dst.cb with
    | none => exact Or.inl rfl
    | some b =>
      right
      cases hpt : dst.ptr with
      | none =>
        rw [hdst.1.mp hpt] at hdc
        exact Option.noConfusion hdc
      | some pd => exact ⟨b, pd, rfl, (hdst.2 b hdc).trans hpt⟩
  refine ⟨Inv_empty w, fun cop del => Inv_empty w,
    fun q cop del => Inv_fromPtr_some w q cop del,
    fun u => Inv_fromPtr_some (allocObj w u).2 (allocObj w u).1
      Copier.defaultC Deleter.defaultD,
    fun u => Inv_makeCow w u,
    ?_, hdst, Inv_empty w, ?_, ?_, Inv_empty _,
    rfl, rfl, fset_self _ _ _, ⟨rfl, rfl⟩, ⟨rfl, rfl⟩,
    hdst, Inv_empty _, ?_, ?_, Inv_empty _, hdst, ?_, Inv_empty _,
    ?_, ?_, hsrc, hdst,
    (mutate_inv f w p sa hwf hinv2).1,
    (mutate_inv f w p sa hwf hinv2).2⟩
  · -- copyCtor
    constructor
    · exact hdst.1
    · intro a ha
      exact (cbPtr_incref w dst.cb a).trans (hdst.2 a ha)
  · -- convCopyCtor from the non-empty source
    constructor
    · constructor
      · intro hh
        exact Option.noConfusion (show (some p : Option Nat) = none from hh)
      · intro hh
        exact Option.noConfusion
          (show (some w.nextCb : Option Nat) = none from hh)
    · intro a ha
      have haa : a = w.nextCb := by
        injection ha with ha
        exact ha.symm
      rw [haa]
      exact Inv_newDelegating (increfOpt w (some sa)) p sa
        (WF_increfOpt w (some sa) hwf)
        ((cbPtr_incref w (some sa) sa).trans hinv2)
  · -- convMoveCtor from the non-empty source
    constructor
    · constructor
      · intro hh
        exact Option.noConfusion (show (some p : Option Nat) = none from hh)
      · intro hh
        exact Option.noConfusion
          (show (some w.nextCb : Option Nat) = none from hh)
    · intro a ha
      have haa : a = w.nextCb := by
        injection ha with ha
        exact ha.symm
      rw [haa]
      exact Inv_newDelegating w p sa hwf hinv2
  · -- copyAssign success
    intro a₁ hcl
    exact copyAssign_inv f w dst p sa a₁ hwf hinv2 hdstE hcl
  · -- moveAssign
    exact moveAssign_inv w dst p sa hinv2 hds
  · -- convMoveAssign
    exact convMoveAssign_inv w dst p sa hwf hinv2 hdstE hds
  · -- convCopyAssign
    have hdstE' : dst.cb = none ∨ ∃ b pd, dst.cb = some b ∧
        cbPtr (increfOpt w (some sa)) b = some pd := by
      rcases hdstE with h | ⟨b, pd, h1, h2⟩
      · exact Or.inl h
      · exact Or.inr ⟨b, pd, h1, (cbPtr_incref w (some sa) b).trans h2⟩
    exact convMoveAssign_inv (increfOpt w (some sa)) dst p sa
      (WF_increfOpt w (some sa) hwf)
      ((cbPtr_incref w (some sa) sa).trans hinv2) hdstE'
      (DropSafe_incref w (some sa) dst.cb sa hds)
  · -- valueAssign
    intro u
    constructor
    · constructor
      · intro hh
        exact Option.noConfusion
          (show (some w.nextObj : Option Nat) = none from hh)
      · intro hh
        exact Option.noConfusion
          (show (some w.nextCb : Option Nat) = none from hh)
    · intro a ha
      have haa : a = w.nextCb := by
        injection ha with ha
        exact ha.symm
      rw [haa]
      have hkeepV : cbPtr (allocCb (allocObj w u).2
          (CB.indirect w.nextObj Copier.defaultC Deleter.defaultD)).2
          w.nextCb = some w.nextObj :=
        cbPtr_of_indirect _ w.nextCb w.nextObj _ _ (fset_self _ _ _)
      show cbPtr (dropCb (allocCb (allocObj w u).2
        (CB.indirect w.nextObj Copier.defaultC Deleter.defaultD)).2
        dst.cb) w.nextCb = some w.nextObj
      rcases hdstE with hdc | ⟨b, pd, hdc, hbp⟩
      · rw [hdc]
        exact hkeepV
      · have hb_cbs : w.cbs b ≠ none := cbPtrF_some_cbs b w b pd hbp
        have hb_lt : b < w.nextCb := by
          by_contra hh
          exact hb_cbs (hwf.cbBound b (by omega))
        rw [hdc]
        refine drop_preserve_cbPtr _ b w.nextCb w.nextObj (Or.inr ?_)
          hkeepV
        intro x hx hx'
        rw [chainF_of_indirect _ w.nextCb w.nextCb w.nextObj
          Copier.defaultC Deleter.defaultD (fset_self _ _ _)] at hx'
        have hxeq : x = w.nextCb := List.mem_singleton.mp hx'
        have hcV : ∀ y, y < w.nextCb → (allocCb (allocObj w u).2
            (CB.indirect w.nextObj Copier.defaultC
              Deleter.defaultD)).2.cbs y = w.cbs y := by
          intro y hy
          show fset (allocObj w u).2.cbs ((allocObj w u).2.nextCb) _ y =
            w.cbs y
          rw [fset_other _ _ (by
            have h0 : (allocObj w u).2.nextCb = w.nextCb := rfl
            omega : y ≠ (allocObj w u).2.nextCb)]
          rfl
        have hbW : chainF (b + 1) (allocCb (allocObj w u).2
            (CB.indirect w.nextObj Copier.defaultC Deleter.defaultD)).2
            (some b) = chainF (b + 1) w (some b) :=
          chainF_ext_below w _ w.nextCb hcV hdeleg (b + 1) (some b)
            (by intro b' hb'; injection hb' with hb'; omega)
        rw [hbW] at hx
        have hxb : x ≤ b := chainF_le w hdeleg (b + 1) b x hx
        omega

/-- Witness for the amended C5 on the one-block heap: the converting copy
from a non-empty wrapper satisfies the invariant, and the converting copy
from an empty wrapper shows the carved-out exception. -/
theorem c5_inv_amended_witness :
    Inv (convCopyCtor c1W ⟨some 0, some 0⟩).2
      (convCopyCtor c1W ⟨some 0, some 0⟩).1 ∧
    (convCopyCtor c1W (⟨none, none⟩ : Wrapper)).1.ptr = none ∧
    (convCopyCtor c1W (⟨none, none⟩ : Wrapper)).1.cb = some 1 := by
  have hsrc : Inv c1W ⟨some 0, some 0⟩ := by
    constructor
    · constructor
      · intro hh
        exact Option.noConfusion (show (some 0 : Option Nat) = none from hh)
      · intro hh
        exact Option.noConfusion (show (some 0 : Option Nat) = none from hh)
    · intro a ha
      have haa : a = 0 := by
        injection ha with ha
        exact ha.symm
      rw [haa]
      rfl
  have hds : DropSafe c1W (Wrapper.cb ⟨none, none⟩) 0 :=
    fun b hb => Option.noConfusion hb
  have h := c5_inv_amended 2 c1W ⟨some 0, some 0⟩ ⟨none, none⟩
    ⟨none, none⟩ 0 0 c1W_WF rfl rfl hsrc (Inv_empty c1W) rfl rfl hds
  obtain ⟨-, -, -, -, -, -, -, -, h9, -, -, h12, h13, -⟩ := h
  exact ⟨h9, h12, h13⟩

end CopyOnWrite
